import Mathlib

/-!
Broker: publisher send rate, item stash, configuration, topics, publisher.

A shallow embedding of parts of the Broker sources
(`src/publisher.cc`, `src/detail/item_stash.cc`, `src/configuration.cc`,
`src/core_actor.cc`, `src/detail/pipe.cc`, `include/broker/topic.hh`,
`tests/cpp/mixin/connector.cc`, `tests/benchmark/broker-cluster-benchmark.cc`)
together with theorems about them.

Conventions.
* A `std::vector<T>` is a `List T` (front of the vector = head of the list);
  for the free list of the stash the `capacity()` is kept next to it.
* A `size_t` is a `Nat`; the sum that `rate()` accumulates is reduced modulo
  `2 ^ 64`. Sizes of vectors stay below `max_size()` and are not reduced.
* A C++ function that can throw returns `Except cpp_exception _`; where the
  object is still used after the throw, the result is paired with the state.
* What the sources take from outside (the item allocator, the environment,
  `errno`, the CAF parser, the queue of the publisher, the routing table and
  the pending connections of the core manager) is an input; the descriptor
  table of the process follows `dup`, `pipe` and `fcntl` of POSIX.
* A class whose base classes are outside the sources (`core_manager`) records
  the inherited member functions called on it.
* `caf::settings` is a dictionary from qualified names to values: the entry
  `disable-ssl` of the group `broker` is the entry `broker.disable-ssl`.
-/

namespace Broker

/-! ## `src/publisher.cc`: `publisher_worker_state` -/

/-- Number of values of `size_t` (64-bit targets). -/
def size_t_mod : Nat := 2 ^ 64

/-- Source constant `sample_size`: how many seconds are averaged. -/
def sample_size : Nat := 10

/-- Source constant `queue_size`: how many items are stored in the queue. -/
def queue_size : Nat := 30

/-- The state of the publisher worker: sample buffer and item counter. -/
structure publisher_worker_state where
  buf : List Nat := []
  counter : Nat := 0
deriving DecidableEq, Repr

/-- The effect of `std::rotate(first, first + 1, last)`: left rotation by one. -/
def rotate_left_one (xs : List Nat) : List Nat :=
  match xs with
  | [] => []
  | x :: rest => rest ++ [x]

/-- The effect of `buf.back() = v` on a vector. -/
def set_back (xs : List Nat) (v : Nat) : List Nat :=
  match xs with
  | [] => []
  | _ :: _ => xs.dropLast ++ [v]

/-- The effect of `std::accumulate(first, last, size_t{0})`: a left fold with
`size_t` addition. -/
def accumulate (xs : List Nat) : Nat :=
  xs.foldl (fun acc x => (acc + x) % size_t_mod) 0

namespace publisher_worker_state

/-- Member function `tick` of `publisher_worker_state`. -/
def tick (st : publisher_worker_state) : publisher_worker_state :=
  if st.buf.length < sample_size then
    { buf := st.buf ++ [st.counter], counter := 0 }
  else
    { buf := set_back (rotate_left_one st.buf) st.counter, counter := 0 }

/-- Member function `rate` of `publisher_worker_state`. -/
def rate (st : publisher_worker_state) : Nat :=
  if st.buf ≠ [] then accumulate st.buf / st.buf.length else 0

/-- One second of the worker: the counter has reached `c` when the tick
handler runs. -/
def tick_with (st : publisher_worker_state) (c : Nat) : publisher_worker_state :=
  tick { st with counter := c }

/-- The worker state after the ticks of a run, one per-second count for each
tick, starting from the default-constructed state. -/
def after_ticks (cs : List Nat) : publisher_worker_state :=
  cs.foldl tick_with {}

end publisher_worker_state

/-- The samples of the window: the last `min k sample_size` of `k` counts. -/
def window (cs : List Nat) : List Nat :=
  cs.drop (cs.length - min cs.length sample_size)

/-! ## C++ exceptions -/

/-- The exceptions thrown by the embedded code, each with its `what()`. -/
inductive cpp_exception where
  | out_of_range (what : String)
  | invalid_argument (what : String)
  | runtime_error (what : String)
  | bad_alloc
deriving DecidableEq, Repr

/-! ## `src/detail/item_stash.cc`: `item_stash` -/

/-- An `item*`: the address of a storage slot. -/
abbrev item_ptr := Nat

/-- The null pointer. -/
def nullptr : item_ptr := 0

/-- A `std::vector<item*>`: its elements and its `capacity()`. -/
structure ptr_vector where
  elems : List item_ptr := []
  capacity : Nat := 0
deriving DecidableEq, Repr

namespace ptr_vector

/-- Member function `size`. -/
def size (v : ptr_vector) : Nat := v.elems.length

/-- Member function `empty`. -/
def empty (v : ptr_vector) : Bool := v.elems.isEmpty

/-- Member function `reserve(n)`: the capacity becomes at least `n`. -/
def reserve (v : ptr_vector) (n : Nat) : ptr_vector :=
  if n > v.capacity then { v with capacity := n } else v

/-- The call `insert(end(), n, x)`: appends `n` copies of `x`, reallocating
when the capacity does not suffice (new capacity `size + max size n`). -/
def insert_end (v : ptr_vector) (n : Nat) (x : item_ptr) : ptr_vector :=
  { elems := v.elems ++ List.replicate n x,
    capacity := if v.size + n > v.capacity then v.size + max v.size n else v.capacity }

/-- The call `resize(n)`: on a vector shorter than `n`, appends null pointers. -/
def resize (v : ptr_vector) (n : Nat) : ptr_vector :=
  if n ≤ v.size then { v with elems := v.elems.take n }
  else v.insert_end (n - v.size) nullptr

/-- The call `erase(begin() + i, end())`. -/
def erase_from (v : ptr_vector) (i : Nat) : ptr_vector :=
  { v with elems := v.elems.take i }

/-- Writing the span of `n` slots that starts at index `i`: slot `i + j`
receives `f j`. -/
def fill_span (v : ptr_vector) (i n : Nat) (f : Nat → item_ptr) : ptr_vector :=
  { v with elems := v.elems.take i ++ (List.range n).map f ++ v.elems.drop (i + n) }

/-- Member function `back`. -/
def back (v : ptr_vector) : item_ptr := v.elems.getLastD nullptr

/-- Member function `pop_back`. -/
def pop_back (v : ptr_vector) : ptr_vector :=
  { v with elems := v.elems.dropLast }

/-- Member function `push_back`: reallocates (doubling) when the vector is
full. -/
def push_back (v : ptr_vector) (x : item_ptr) : ptr_vector :=
  { elems := v.elems ++ [x],
    capacity := if v.size = v.capacity then max 1 (2 * v.size) else v.capacity }

end ptr_vector

/-- The outcome of one call of `item_allocator::allocate` on a span: the
allocator either throws or writes the slot address `f j` into entry `j`. The
allocator is not part of the embedded sources; its outcome is an input. -/
abbrev alloc_outcome := Except cpp_exception (Nat → item_ptr)

/-- The data members of `item_stash` that the embedded functions use;
`max_stash_size_` starts at `0`. -/
structure item_stash where
  stash_ : ptr_vector := {}
  max_stash_size_ : Nat := 0
deriving DecidableEq, Repr

/-- The `item_scope` enumeration, by its underlying value. -/
abbrev item_scope := Nat

/-- An item constructed in a slot: the slot address and the constructor
arguments (`msg` stands for any of the three message types). -/
structure item where
  addr : item_ptr
  msg : String
  msg_ttl : Nat
  origin : Nat
  scope : item_scope
deriving DecidableEq, Repr

namespace item_stash

/-- Member function `available`: the size of the free list. -/
def available (s : item_stash) : Nat := s.stash_.size

/-- Static member function `make(allocator, size)`. -/
def make (alloc : alloc_outcome) (size : Nat) : Except cpp_exception item_stash :=
  if size > 0 then
    let items := (({} : ptr_vector).resize size)
    match alloc with
    | .error e => .error e
    | .ok f => .ok { stash_ := items.fill_span 0 size f, max_stash_size_ := size }
  else
    .ok {}

/-- Member function `replenish(n)`: the result (whether it threw) and the
stash afterwards. (For an `n` beyond what the vector admits, `reserve` or
`insert` throws `std::length_error` before anything changes; such `n` are not
modelled.) -/
def replenish (s : item_stash) (n : Nat) (alloc : alloc_outcome) :
    Except cpp_exception Unit × item_stash :=
  let v1 := s.stash_.reserve (s.max_stash_size_ + n)
  let i := v1.size
  let v2 := v1.insert_end n nullptr
  match alloc with
  | .ok f =>
    (.ok (), { stash_ := v2.fill_span i n f, max_stash_size_ := s.max_stash_size_ + n })
  | .error e =>
    (.error e, { s with stash_ := v2.erase_from i })

/-- Member function `next()`: the slot (or the exception) and the stash
afterwards. -/
def next (s : item_stash) : Except cpp_exception item_ptr × item_stash :=
  if !s.stash_.empty then
    (.ok s.stash_.back, { s with stash_ := s.stash_.pop_back })
  else
    (.error (.out_of_range "item_stash::next called with available() == 0"), s)

/-- Member function `next_item(msg, msg_ttl, origin, scope)` (the three
overloads differ in the message type only). -/
def next_item (s : item_stash) (msg : String) (msg_ttl : Nat) (origin : Nat)
    (scope : item_scope) : Except cpp_exception item × item_stash :=
  match s.next with
  | (.ok ptr, s1) => (.ok ⟨ptr, msg, msg_ttl, origin, scope⟩, s1)
  | (.error e, s1) => (.error e, s1)

/-- Member function `reclaim(ptr)`. -/
def reclaim (s : item_stash) (ptr : item_ptr) : item_stash :=
  { s with stash_ := s.stash_.push_back ptr }

end item_stash

/-- A stash together with the bookkeeping of its clients: the slots handed
out and not yet reclaimed, and how many slots were acquired and reclaimed. -/
structure pool where
  stash : item_stash
  live : List item_ptr := []
  acquired : Nat := 0
  reclaimed : Nat := 0
deriving DecidableEq, Repr

/-- The operations on a stash. -/
inductive pool_op where
  | replenish (n : Nat) (alloc : alloc_outcome)
  | next
  | reclaim (p : item_ptr)

namespace pool

/-- One operation on the pool. `reclaim p` is only defined for a slot `p` that
was handed out and not reclaimed since; a `next` that throws changes nothing. -/
def step (q : pool) : pool_op → Option pool
  | .replenish n alloc => some { q with stash := (q.stash.replenish n alloc).2 }
  | .next =>
    match q.stash.next with
    | (.ok p, s1) => some { q with stash := s1, live := p :: q.live, acquired := q.acquired + 1 }
    | (.error _, s1) => some { q with stash := s1 }
  | .reclaim p =>
    if p ∈ q.live then
      some { q with stash := q.stash.reclaim p, live := q.live.erase p,
                    reclaimed := q.reclaimed + 1 }
    else none

/-- A sequence of operations, from left to right. -/
def run (q : pool) : List pool_op → Option pool
  | [] => some q
  | op :: ops => (q.step op).bind (fun q1 => run q1 ops)

end pool

/-! ## `src/configuration.cc`: `configuration` -/

/-- A `caf::config_value`, with the alternatives that the embedded code
stores. -/
inductive config_value where
  | boolean (b : Bool)
  | integer (n : Int)
  | string (s : String)
  | timespan (ns : Int)
  | string_list (xs : List String)
deriving DecidableEq, Repr

/-- The `caf::settings` dictionary, keyed by the qualified name of an entry
(`"broker.disable-ssl"` is the entry `disable-ssl` of the group `broker`). -/
abbrev settings := List (String × config_value)

namespace settings

/-- The call `get_if(&xs, key)`: the entry of that name, if any. -/
def get_if (xs : settings) (key : String) : Option config_value :=
  xs.lookup key

/-- The call `put(xs, key, value)`: sets the entry, replacing an old one. -/
def put (xs : settings) (key : String) (value : config_value) : settings :=
  (key, value) :: xs.filter (fun e => e.1 != key)

/-- The call `put_missing(xs, key, value)`: sets the entry unless it exists. -/
def put_missing (xs : settings) (key : String) (value : config_value) : settings :=
  if (xs.get_if key).isSome then xs else xs.put key value

/-- The call `get_if<std::string>(&xs, key)`. -/
def get_if_string (xs : settings) (key : String) : Option String :=
  match xs.get_if key with
  | some (.string s) => some s
  | _ => none

/-- The call `get_if<size_t>(&xs, key)`. -/
def get_if_size_t (xs : settings) (key : String) : Option Nat :=
  match xs.get_if key with
  | some (.integer n) => if 0 ≤ n then some n.toNat else none
  | _ => none

end settings

/-- The fields of `broker_options` that `configuration.cc` reads. -/
structure broker_options where
  disable_ssl : Bool := false
  disable_forwarding : Bool := false
  ignore_broker_conf : Bool := false
deriving DecidableEq, Repr

/-- Source constant `conf_file`. -/
def conf_file : String := "broker.conf"

/-- Source function `concat`. -/
def concat (xs : List String) : String :=
  xs.foldl (fun result x => result ++ x) ""

/-- Source constant `file_verbosity_key` (string variant). -/
def file_verbosity_key : String := "caf.logger.file.verbosity"

/-- Source constant `console_verbosity_key` (string variant). -/
def console_verbosity_key : String := "caf.logger.console.verbosity"

/-- Source function `throw_illegal_log_level`: the exception it throws. -/
def throw_illegal_log_level (var cstr : String) : cpp_exception :=
  .invalid_argument
    (concat ["illegal value for environment variable ", var, ": '", cstr,
             "' (legal values: 'trace', 'debug', 'info', 'warning', 'error')"])

/-- Source function `valid_log_level` (string variant). -/
def valid_log_level (x : String) : Bool :=
  x == "trace" || x == "debug" || x == "info" || x == "warning"
    || x == "error" || x == "quiet"

/-- Source function `to_log_level` (string variant). -/
def to_log_level (var cstr : String) : Except cpp_exception String :=
  let str := cstr
  if valid_log_level str then .ok str else .error (throw_illegal_log_level var cstr)

/-- The value `ERANGE` of `errno`. -/
def ERANGE : Nat := 34

/-- The largest `long` (LP64). -/
def LONG_MAX : Int := 2 ^ 63 - 1

/-- The smallest `long` (LP64). -/
def LONG_MIN : Int := -(2 ^ 63)

/-- The C function `isspace` in the C locale. -/
def isspace (c : Char) : Bool :=
  c == ' ' || c == '\t' || c == '\n' || c == '\x0b' || c == '\x0c' || c == '\r'

/-- The C function `isdigit`. -/
def isdigit (c : Char) : Bool :=
  '0'.toNat ≤ c.toNat && c.toNat ≤ '9'.toNat

/-- The number that a string of decimal digits denotes. -/
def digits_value (ds : List Char) : Nat :=
  ds.foldl (fun acc c => 10 * acc + (c.toNat - '0'.toNat)) 0

/-- What `strtol` leaves behind: the value, the characters from `*end` on and
`errno`. -/
structure strtol_result where
  value : Int
  rest : List Char
  errno : Nat
deriving DecidableEq, Repr

/-- The C function `strtol(nptr, &end, 10)`: skips white space, reads an
optional sign and the decimal digits; without a digit nothing is converted
and `end` is `nptr`; a value outside `long` is clamped and sets `errno` to
`ERANGE`; otherwise `errno` keeps its value. -/
def strtol (nptr : List Char) (errno : Nat) : strtol_result :=
  let s1 := nptr.dropWhile isspace
  let negative := s1.head? == some '-'
  let s2 := if s1.head? == some '-' || s1.head? == some '+' then s1.tail else s1
  let ds := s2.takeWhile isdigit
  let rest := s2.dropWhile isdigit
  if ds.isEmpty then ⟨0, nptr, errno⟩
  else if negative then
    if (digits_value ds : Int) > -LONG_MIN then ⟨LONG_MIN, rest, ERANGE⟩
    else ⟨-(digits_value ds : Int), rest, errno⟩
  else
    if (digits_value ds : Int) > LONG_MAX then ⟨LONG_MAX, rest, ERANGE⟩
    else ⟨(digits_value ds : Int), rest, errno⟩

/-- What `init` reads of the process and of the CAF parser: the environment
variables, the value of `errno` when phase 2 starts, and for each of the two
calls of `parse` either the error it returns or the entries it sets, in
order. -/
structure host_env where
  getenv : String → Option String
  errno : Nat := 0
  parse_conf : List String → Except String (List (String × config_value))
  parse_cli : List String → Except String (List (String × config_value))

/-- The data members of `configuration`: the options, the `content` of the
actor-system configuration and the modules loaded so far. -/
structure configuration where
  options_ : broker_options := {}
  content : settings := []
  modules : List String := []
deriving DecidableEq, Repr

/-- Storing a value in an option that was added with a reference to a field of
`options_` (`disable-ssl`, `disable-forwarding`) writes that field. -/
def store_option (opts : broker_options) (key : String) (value : config_value) :
    broker_options :=
  match value with
  | .boolean b =>
    if key = "broker.disable-ssl" then { opts with disable_ssl := b }
    else if key = "broker.disable-forwarding" then { opts with disable_forwarding := b }
    else opts
  | _ => opts

namespace configuration

/-- Member function `set(name, value)` of the actor-system configuration:
stores the value in the option and in `content`. -/
def set (cfg : configuration) (name : String) (value : config_value) : configuration :=
  { cfg with options_ := store_option cfg.options_ name value,
             content := cfg.content.put name value }

/-- The entries that a call of `parse` sets, in order. -/
def set_all (cfg : configuration) (entries : List (String × config_value)) : configuration :=
  entries.foldl (fun c e => c.set e.1 e.2) cfg

/-- Member function `load<Module>()`. -/
def load (cfg : configuration) (module : String) : configuration :=
  { cfg with modules := cfg.modules ++ [module] }

/-- Member function `sync_options`. -/
def sync_options (cfg : configuration) : configuration :=
  (cfg.set "broker.disable-ssl" (.boolean cfg.options_.disable_ssl)).set
    "broker.disable-forwarding" (.boolean cfg.options_.disable_forwarding)

/-- The constructor `configuration(skip_init_t)` (string variant of the
logger keys); `protocol` is `version::protocol`. -/
def skip_init (protocol : Nat) : configuration :=
  let cfg : configuration := {}
  let cfg := cfg.sync_options
  let ids := [("broker.v" ++ toString protocol)]
  let cfg := cfg.set "caf.logger.file.path" (.string "broker_[PID]_[TIMESTAMP].log")
  let cfg := cfg.set "caf.logger.file.verbosity" (.string "quiet")
  let cfg := cfg.set "caf.logger.console.format" (.string "[%c/%p] %d %m")
  let cfg := cfg.set "caf.logger.console.verbosity" (.string "error")
  let cfg := { cfg with content := cfg.content.put "caf.middleman.app-identifiers"
                                    (.string_list ids) }
  let cfg := { cfg with content := cfg.content.put "caf.middleman.workers" (.integer 0) }
  cfg.set "caf.logger.console.excluded-components"
    (.string_list ["caf", "caf_io", "caf_net", "caf_flow", "caf_stream"])

/-- The predicate of `init`: the argument does not start with
`--config-file=`. -/
def predicate (str : String) : Bool :=
  str.toList.take 14 != "--config-file=".toList

/-- The call `std::stable_partition(args.begin(), args.end(), predicate)`:
the rearranged vector and the position `sep`. -/
def stable_partition (args : List String) : List String × Nat :=
  (args.filter predicate ++ args.filter (fun x => !predicate x),
   (args.filter predicate).length)

/-- The arguments that `init` starts from: `argv[1]` to `argv[argc - 1]`. -/
def init_args (argv : Option (List String)) : List String :=
  match argv with
  | some av => if av.length > 1 then av.drop 1 else []
  | none => []

/-- The start of `init`: loading the CAF modules. -/
def init_load (cfg : configuration) : configuration :=
  let cfg := cfg.load "caf::io::middleman"
  if !cfg.options_.disable_ssl then cfg.load "caf::openssl::manager" else cfg

/-- Phase 1 of `init`: the configuration file and the `--config-file`
arguments. Returns the configuration and the remaining arguments. -/
def init_phase1 (cfg : configuration) (env : host_env) (args : List String) :
    Except cpp_exception (configuration × List String) :=
  if !cfg.options_.ignore_broker_conf then
    let parted := stable_partition args
    let sep := parted.2
    let args_subset := if sep ≠ parted.1.length then parted.1.drop sep else []
    let args := if sep ≠ parted.1.length then parted.1.take sep else parted.1
    match env.parse_conf args_subset with
    | .error err =>
      .error (.runtime_error (concat ["Error while reading ", conf_file, ": ", err]))
    | .ok entries => .ok (cfg.set_all entries, args)
  else
    .ok (cfg, args)

/-- The exception that `init` throws for a `BROKER_OUTPUT_GENERATOR_FILE_CAP`
that it rejects. -/
def invalid_file_cap (env_value : String) : cpp_exception :=
  .invalid_argument
    (concat ["invalid value for BROKER_OUTPUT_GENERATOR_FILE_CAP: ", env_value,
             " (expected a positive integer)"])

/-- The check of `BROKER_OUTPUT_GENERATOR_FILE_CAP` in `init`: the value to
store, or the exception. -/
def output_generator_file_cap (env_value : String) (errno : Nat) :
    Except cpp_exception Nat :=
  let r := strtol env_value.toList errno
  if r.errno = ERANGE ∨ r.rest ≠ [] ∨ r.value < 0 then
    .error (invalid_file_cap env_value)
  else
    .ok r.value.toNat

/-- Phase 2 of `init`, first block: `BROKER_CONSOLE_VERBOSITY`. -/
def env_console_verbosity (cfg : configuration) (env : host_env) :
    Except cpp_exception configuration :=
  match env.getenv "BROKER_CONSOLE_VERBOSITY" with
  | some console_verbosity =>
    match to_log_level "BROKER_CONSOLE_VERBOSITY" console_verbosity with
    | .ok level => .ok (cfg.set console_verbosity_key (.string level))
    | .error e => .error e
  | none => .ok cfg

/-- Phase 2 of `init`, second block: `BROKER_FILE_VERBOSITY`. -/
def env_file_verbosity (cfg : configuration) (env : host_env) :
    Except cpp_exception configuration :=
  match env.getenv "BROKER_FILE_VERBOSITY" with
  | some file_verbosity =>
    match to_log_level "BROKER_FILE_VERBOSITY" file_verbosity with
    | .ok level => .ok (cfg.set file_verbosity_key (.string level))
    | .error e => .error e
  | none => .ok cfg

/-- Phase 2 of `init`, third block: `BROKER_RECORDING_DIRECTORY`. -/
def env_recording_directory (cfg : configuration) (env : host_env) : configuration :=
  match env.getenv "BROKER_RECORDING_DIRECTORY" with
  | some dir => cfg.set "broker.recording-directory" (.string dir)
  | none => cfg

/-- Phase 2 of `init`, fourth block: `BROKER_OUTPUT_GENERATOR_FILE_CAP`. -/
def env_output_generator_file_cap (cfg : configuration) (env : host_env) :
    Except cpp_exception configuration :=
  match env.getenv "BROKER_OUTPUT_GENERATOR_FILE_CAP" with
  | some cap =>
    match output_generator_file_cap cap env.errno with
    | .ok value => .ok (cfg.set "broker.output-generator-file-cap" (.integer value))
    | .error e => .error e
  | none => .ok cfg

/-- Phase 2 of `init`: the environment variables, in the order of the
source. -/
def init_phase2 (cfg : configuration) (env : host_env) :
    Except cpp_exception configuration := do
  let cfg ← cfg.env_console_verbosity env
  let cfg ← cfg.env_file_verbosity env
  let cfg := cfg.env_recording_directory env
  cfg.env_output_generator_file_cap env

/-- Phase 3 of `init`: the command-line arguments. -/
def init_phase3 (cfg : configuration) (env : host_env) (args : List String) :
    Except cpp_exception configuration :=
  if !args.isEmpty then
    match env.parse_cli args with
    | .error err =>
      .error (.runtime_error (concat ["Error while parsing CLI arguments: ", err]))
    | .ok entries => .ok (cfg.set_all entries)
  else
    .ok cfg

/-- Member function `init(argc, argv)`; `argv` is `none` for a null pointer
and otherwise holds `argc` strings. -/
def init (cfg : configuration) (env : host_env) (argv : Option (List String)) :
    Except cpp_exception configuration := do
  let args := init_args argv
  let cfg := cfg.init_load
  let (cfg, args) ← cfg.init_phase1 env args
  let cfg ← cfg.init_phase2 env
  cfg.init_phase3 env args

/-- Member function `dump_content`; `inherited` is what the base class
returns for `super::dump_content()`, the two time spans are the defaults
`path_blacklist::aging_interval` and `path_blacklist::max_age`. The group
`grp = result["broker"]` is the entries named `broker.*`, its sub-group
`path-blacklist` the entries named `broker.path-blacklist.*`. -/
def dump_content (cfg : configuration) (inherited : settings)
    (aging_interval max_age : Int) : settings :=
  let result := inherited
  let result := result.put_missing "broker.disable-ssl" (.boolean cfg.options_.disable_ssl)
  let result := result.put_missing "broker.disable-forwarding"
    (.boolean cfg.options_.disable_ssl)
  let result := match cfg.content.get_if_string "broker.recording-directory" with
    | some path => result.put_missing "broker.recording-directory" (.string path)
    | none => result
  let result := match cfg.content.get_if_size_t "broker.output-generator-file-cap" with
    | some cap => result.put_missing "broker.output-generator-file-cap" (.integer cap)
    | none => result
  let result := result.put_missing "broker.path-blacklist.aging-interval"
    (.timespan aging_interval)
  result.put_missing "broker.path-blacklist.max-age" (.timespan max_age)

end configuration

/-- The entry that a sequence of assignments leaves for a key: the value of
the last assignment to it, if there is one. -/
def last_assigned (entries : List (String × config_value)) (key : String) :
    Option config_value :=
  entries.foldl (fun acc e => if e.1 = key then some e.2 else acc) none

/-- The entries that phase 3 of `init` sets: those of the command-line parser
on the arguments left by phase 1 (none when phase 3 is skipped). -/
def cli_entries (cfg : configuration) (env : host_env) (argv : Option (List String)) :
    List (String × config_value) :=
  match (cfg.init_load).init_phase1 env (configuration.init_args argv) with
  | .ok (_, args) =>
    if !args.isEmpty then
      match env.parse_cli args with
      | .ok entries => entries
      | .error _ => []
    else []
  | .error _ => []

namespace host_env

/-- The environment after `setenv(name, value, 1)`. -/
def setenv (env : host_env) (name value : String) : host_env :=
  { env with getenv := fun k => if k = name then some value else env.getenv k }

/-- The environment after `unsetenv(name)`. -/
def unsetenv (env : host_env) (name : String) : host_env :=
  { env with getenv := fun k => if k = name then none else env.getenv k }

end host_env

/-- The entry that the block for one verbosity variable of phase 2 sets (none
when the variable is unset), or the exception of `to_log_level`. -/
def verbosity_entry (env : host_env) (var key : String) :
    Except cpp_exception (List (String × config_value)) :=
  match env.getenv var with
  | some s =>
    match to_log_level var s with
    | .ok level => .ok [(key, .string level)]
    | .error e => .error e
  | none => .ok []

/-- The entry that the block for `BROKER_RECORDING_DIRECTORY` sets. -/
def recording_directory_entry (env : host_env) : List (String × config_value) :=
  match env.getenv "BROKER_RECORDING_DIRECTORY" with
  | some dir => [("broker.recording-directory", .string dir)]
  | none => []

/-- The entry that the block for `BROKER_OUTPUT_GENERATOR_FILE_CAP` sets, or
its exception. -/
def file_cap_entry (env : host_env) : Except cpp_exception (List (String × config_value)) :=
  match env.getenv "BROKER_OUTPUT_GENERATOR_FILE_CAP" with
  | some cap =>
    match configuration.output_generator_file_cap cap env.errno with
    | .ok value => .ok [("broker.output-generator-file-cap", .integer value)]
    | .error e => .error e
  | none => .ok []

/-- The entries that phase 2 of `init` sets, in order, or the first exception
it throws. -/
def env_entries (env : host_env) : Except cpp_exception (List (String × config_value)) :=
  match verbosity_entry env "BROKER_CONSOLE_VERBOSITY" console_verbosity_key with
  | .error e => .error e
  | .ok a =>
    match verbosity_entry env "BROKER_FILE_VERBOSITY" file_verbosity_key with
    | .error e => .error e
    | .ok b =>
      match file_cap_entry env with
      | .error e => .error e
      | .ok d => .ok (a ++ b ++ recording_directory_entry env ++ d)

/-! ## `include/broker/topic.hh`: `topic` -/

/-- The data member of `topic`. -/
structure topic where
  str_ : String := ""
deriving DecidableEq, Repr

namespace topic

/-- Source constant `topic::sep`. -/
def sep : Char := '/'

/-- Source constant `topic::reserved`. -/
def reserved : String := "<$>"

/-- The converting constructor `topic(T&& x)`: it initialises `str_` with
`x` and its body is empty. -/
def from_string (x : String) : topic :=
  { str_ := x }

/-- Modelled from the spec: `topic::string()` is declared in `topic.hh`
("retrieves the underlying string representation of the topic") and defined
outside the embedded sources; it returns `str_`. -/
def string (t : topic) : String :=
  t.str_

end topic

/-- The components of a topic string: the pieces between the separators;
`cur` holds the characters of the piece being read. -/
def split_components (cs : List Char) (cur : List Char) : List (List Char) :=
  match cs with
  | [] => [cur]
  | c :: rest =>
    if c = topic.sep then cur :: split_components rest []
    else split_components rest (cur ++ [c])

/-- A well-formed user topic, in the words of the specification: no empty
component and no reserved component. -/
def well_formed_user_topic (s : String) : Bool :=
  (split_components s.toList []).all
    (fun comp => !comp.isEmpty && comp != topic.reserved.toList)

/-! ## `src/publisher.cc`: `publisher` -/

/-- The payload type `data`. -/
abbrev data := String

/-- The messages that `publisher` sends to its worker. -/
inductive worker_msg where
  | resume
  | exit_user_shutdown
deriving DecidableEq, Repr

/-- The queue between a publisher and its worker: the buffered items and the
capacity it was made with. -/
structure shared_publisher_queue where
  xs : List (topic × data) := []
  capacity : Nat := queue_size
deriving DecidableEq, Repr

/-- Modelled from the spec: `shared_publisher_queue::produce` is defined
outside the embedded sources. "`produce(item) → bool` where `false` means
queue full and the caller must yield": a full queue refuses the item and
returns `false`, otherwise the item is appended and the result is `true`. -/
def shared_publisher_queue.produce (q : shared_publisher_queue) (t : topic) (x : data) :
    Bool × shared_publisher_queue :=
  if q.xs.length < q.capacity then (true, { q with xs := q.xs ++ [(t, x)] })
  else (false, q)

/-- The data members of `publisher`; `mailbox` collects what was sent to
`worker_`. -/
structure publisher where
  queue_ : shared_publisher_queue := {}
  mailbox : List worker_msg := []
  topic_ : topic := {}
deriving DecidableEq, Repr

namespace publisher

/-- Member function `publish(data x)`, which returns `void`; `produce` is the
member function of the queue that it calls. The result is the return value
and the publisher afterwards. -/
def publish
    (produce : shared_publisher_queue → topic → data → Bool × shared_publisher_queue)
    (p : publisher) (x : data) : Unit × publisher :=
  let r := produce p.queue_ p.topic_ x
  if r.1 then
    ((), { p with queue_ := r.2, mailbox := p.mailbox ++ [worker_msg.resume] })
  else
    ((), { p with queue_ := r.2 })

/-- Member function `publish(std::vector<data> xs)`, which returns `void`;
`produce` is the overload of the queue for a batch. -/
def publish_batch
    (produce : shared_publisher_queue → topic → List data → Bool × shared_publisher_queue)
    (p : publisher) (xs : List data) : Unit × publisher :=
  let r := produce p.queue_ p.topic_ xs
  if r.1 then
    ((), { p with queue_ := r.2, mailbox := p.mailbox ++ [worker_msg.resume] })
  else
    ((), { p with queue_ := r.2 })

end publisher

/-- The environment variables that `init` reads. -/
def mirrored_vars : List String :=
  ["BROKER_CONSOLE_VERBOSITY", "BROKER_FILE_VERBOSITY", "BROKER_RECORDING_DIRECTORY",
   "BROKER_OUTPUT_GENERATOR_FILE_CAP"]

/-- The legal verbosity levels, as the specification lists them. -/
def legal_log_levels : List String :=
  ["trace", "debug", "info", "warning", "error", "quiet"]

/-- An argument that begins with `--config-file=`, in the words of the
specification of the argument split. -/
def is_config_file_arg (s : String) : Bool :=
  "--config-file=".toList.isPrefixOf s.toList

/-- What `init` does after phase 1, given the entries of the configuration
file and the arguments left for the command line: phase 2, then phase 3
unless no argument is left. -/
def init_after_phase1 (cfg : configuration) (env : host_env)
    (entries : List (String × config_value)) (cli_args : List String) :
    Except cpp_exception configuration :=
  match (cfg.set_all entries).init_phase2 env with
  | .error e => .error e
  | .ok c2 =>
    if cli_args.isEmpty then .ok c2
    else
      match env.parse_cli cli_args with
      | .error err =>
        .error (.runtime_error (concat ["Error while parsing CLI arguments: ", err]))
      | .ok cli => .ok (c2.set_all cli)


/-! ## `src/core_actor.cc`: `core_manager` and the core actor -/

/-- The call `caf::get_or(cfg, key, fallback)` for a `bool`: the entry when
it is a boolean, the fallback otherwise. -/
def settings.get_or_bool (xs : settings) (key : String) (fallback : Bool) : Bool :=
  match xs.get_if key with
  | some (.boolean b) => b
  | _ => fallback

/-- The field of `domain_options` that `core_actor.cc` reads. -/
structure domain_options where
  disable_forwarding : Bool := false
deriving DecidableEq, Repr

/-- An actor as the core actor sees it: its identity and the node it runs
on (`self->node()`). -/
structure actor_ref where
  id : Nat
  node : Nat
deriving DecidableEq, Repr

/-- A call of a member function that `core_manager` inherits; the classes it
derives from are outside the embedded sources, so the manager records the
calls made on it. -/
inductive manager_call where
  | disable_forwarding (value : Bool)
  | subscribe (filter : List topic)
  | set_use_ssl (value : Bool)
deriving DecidableEq, Repr

/-- A `core_manager`: the arguments handed to the base class, `id_`, and the
inherited member functions called on it so far, in order (`set_use_ssl` is
called on its `cache()`). -/
structure core_manager where
  clock : Nat
  self : actor_ref
  id_ : Nat
  calls : List manager_call := []
deriving DecidableEq, Repr

namespace core_manager

/-- Records a call of an inherited member function. -/
def call (m : core_manager) (c : manager_call) : core_manager :=
  { m with calls := m.calls ++ [c] }

/-- The constructor `core_manager(clock, self)`. -/
def make (clock : Nat) (self : actor_ref) : core_manager :=
  { clock := clock, self := self, id_ := self.node }

/-- The constructor `core_manager(clock, self, adaptation)`. -/
def make_adapted (clock : Nat) (self : actor_ref) (adaptation : domain_options) :
    core_manager :=
  let m := make clock self
  if adaptation.disable_forwarding then m.call (.disable_forwarding true) else m

/-- The values passed to `disable_forwarding`, in order. -/
def forwarding_calls (m : core_manager) : List Bool :=
  m.calls.filterMap (fun c =>
    match c with
    | .disable_forwarding b => some b
    | _ => none)

/-- The values passed to `cache().set_use_ssl`, in order. -/
def use_ssl_calls (m : core_manager) : List Bool :=
  m.calls.filterMap (fun c =>
    match c with
    | .set_use_ssl b => some b
    | _ => none)

end core_manager

/-- The function-call operator of `core_actor_t`: the manager it stores in
the state of the actor, after the calls it makes on it; `cfg` is the content
of `self->system().config()`, `adaptation` is `none` for a null pointer. -/
def core_actor (self : actor_ref) (initial_filter : List topic) (clock : Nat)
    (adaptation : Option domain_options) (cfg : settings) : core_manager :=
  let mgr := match adaptation with
    | some a => core_manager.make_adapted clock self a
    | none => core_manager.make clock self
  let mgr := if !initial_filter.isEmpty then mgr.call (.subscribe initial_filter) else mgr
  mgr.call (.set_use_ssl (!(cfg.get_or_bool "broker.disable-ssl" false)))

/-- A `network_info`: host and port of a remote endpoint. -/
structure network_info where
  address : String
  port : Nat
deriving DecidableEq, Repr

/-- An `endpoint_info`: the id of a peer and its network address, if known. -/
structure endpoint_info where
  node : Nat
  network : Option network_info
deriving DecidableEq, Repr

/-- The enumerators of `peer_flags` that `core_actor.cc` uses. -/
inductive peer_flags where
  | remote
deriving DecidableEq, Repr

/-- The enumerators of `peer_status` that `core_actor.cc` uses. -/
inductive peer_status where
  | connected
  | peered
deriving DecidableEq, Repr

/-- A `peer_info`. -/
structure peer_info where
  peer : endpoint_info
  flags : peer_flags
  status : peer_status
deriving DecidableEq, Repr

/-- A pending connection of the stream transport: its handle. -/
structure pending_connection where
  hdl : Nat
deriving DecidableEq, Repr

/-- The handler for `(get, peer)` in `core_manager::make_behavior`.
`for_each_direct tbl` lists the pairs `(id, hdl)` that `alm::for_each_direct`
hands to its callback, in order; `pending` lists the entries of
`pending_connections()` in iteration order; `cache_find` is `cache().find`. -/
def core_manager.get_peer {routing_table : Type} (for_each_direct : routing_table → List (Nat × Nat))
    (cache_find : Nat → Option network_info) (tbl : routing_table)
    (pending : List (Nat × pending_connection)) : List peer_info :=
  let result : List peer_info := []
  let result := (for_each_direct tbl).foldl
    (fun result x =>
      result ++ [{ peer := { node := x.1, network := cache_find x.2 },
                   flags := .remote, status := .peered }])
    result
  pending.foldl
    (fun result x =>
      result ++ [{ peer := { node := x.1, network := cache_find x.2.hdl },
                   flags := .remote, status := .connected }])
    result


/-! ## `include/broker/topic.hh`: the operations declared for `topic` -/

/-- Modelled from the spec: `topic::split` is declared in `topic.hh` and
defined outside the embedded sources. "`split(t)` → component list (empty
components forbidden)": the non-empty pieces between the separators. -/
def topic.split (t : topic) : List (List Char) :=
  (split_components t.str_.toList []).filter (fun comp => !comp.isEmpty)

/-- The string form of a component list: the components with one separator
between neighbours. -/
def join_components : List (List Char) → List Char
  | [] => []
  | [c] => c
  | c :: rest => c ++ topic.sep :: join_components rest

/-- Modelled from the spec: `topic::join` is declared in `topic.hh` and
defined outside the embedded sources. "`join(components)` → topic". -/
def topic.join (components : List (List Char)) : topic :=
  { str_ := String.mk (join_components components) }

/-- Modelled from the spec: `operator/` (and `operator/=`) is declared in
`topic.hh` and defined outside the embedded sources. "`t1 / t2` →
concatenation with separator normalization (no duplicate separators, no
leading/trailing separator)": the components of `t1` followed by those of
`t2`. -/
def topic.div (t1 t2 : topic) : topic :=
  topic.join (t1.split ++ t2.split)

/-- Modelled from the spec: `topic::prefix_of` is declared in `topic.hh` and
defined outside the embedded sources. "`prefix_of(a, b)` is true iff `a`'s
components are a prefix of `b`'s (component-boundary, not
character-level)". -/
def topic.prefix_of (a b : topic) : Bool :=
  a.split.isPrefixOf b.split


/-! ## `src/detail/pipe.cc`: `pipe` -/

/-- The descriptor flag `FD_CLOEXEC`. -/
def FD_CLOEXEC : Nat := 1

/-- An entry of the descriptor table of the process: the open file
description the descriptor refers to and its descriptor flags. -/
structure fd_entry where
  description : Nat
  fd_flags : Nat
deriving DecidableEq, Repr

/-- The descriptors of the process: the open descriptors, the number of
descriptors the process may have, the status flags of the open file
descriptions and the number of descriptions made so far. -/
structure fd_table where
  entries : List (Int × fd_entry) := []
  limit : Nat := 1024
  status_flags : List (Nat × Nat) := []
  descriptions : Nat := 0
deriving DecidableEq, Repr

namespace fd_table

/-- The entry of an open descriptor. -/
def find (t : fd_table) (fd : Int) : Option fd_entry :=
  t.entries.lookup fd

/-- The lowest descriptor that is not open. -/
def lowest_unused (t : fd_table) : Nat :=
  ((List.range (t.entries.length + 1)).find?
    (fun (n : Nat) => !t.entries.any (fun e => e.1 == Int.ofNat n))).getD t.entries.length

/-- Replaces the entry of a descriptor. -/
def update (t : fd_table) (fd : Int) (e : fd_entry) : fd_table :=
  { t with entries := t.entries.map (fun x => if x.1 = fd then (fd, e) else x) }

/-- The system call `dup(fd)`: the lowest unused descriptor, referring to the
same open file description, with its descriptor flags cleared; `-1` when `fd`
is not open or no descriptor is left. -/
def dup (t : fd_table) (fd : Int) : Int × fd_table :=
  match t.find fd with
  | some e =>
    if t.lowest_unused < t.limit then
      ((t.lowest_unused : Int),
       { t with entries := t.entries ++
           [((t.lowest_unused : Int), { description := e.description, fd_flags := 0 })] })
    else (-1, t)
  | none => (-1, t)

/-- The system call `pipe(fds)`: two new descriptors for the two ends of a
new pipe, with no descriptor flag and no status flag set; `none` when it
fails. -/
def sys_pipe (t : fd_table) : Option ((Int × Int) × fd_table) :=
  let fd0 := t.lowest_unused
  let t1 : fd_table :=
    { t with entries := t.entries ++ [((fd0 : Int), { description := t.descriptions, fd_flags := 0 })],
             status_flags := t.status_flags ++ [(t.descriptions, 0)],
             descriptions := t.descriptions + 1 }
  let fd1 := t1.lowest_unused
  let t2 : fd_table :=
    { t1 with entries := t1.entries ++ [((fd1 : Int), { description := t1.descriptions, fd_flags := 0 })],
              status_flags := t1.status_flags ++ [(t1.descriptions, 0)],
              descriptions := t1.descriptions + 1 }
  if fd1 < t.limit then some (((fd0 : Int), (fd1 : Int)), t2) else none

/-- The system call `close(fd)`. -/
def close (t : fd_table) (fd : Int) : fd_table :=
  { t with entries := t.entries.filter (fun x => x.1 != fd) }

end fd_table

/-- Source function `set_flags`: with `flags` non-zero, the descriptor flags
of `fd` become their old value or-ed with `flags` (on a descriptor that is
not open both calls of `fcntl` fail and nothing changes). -/
def set_flags (t : fd_table) (fd : Int) (flags : Nat) : fd_table :=
  if flags ≠ 0 then
    match t.find fd with
    | some e => t.update fd { e with fd_flags := e.fd_flags ||| flags }
    | none => t
  else t

/-- Source function `set_status_flags`: with `flags` non-zero, the status
flags of the open file description of `fd` become their old value or-ed with
`flags`. -/
def set_status_flags (t : fd_table) (fd : Int) (flags : Nat) : fd_table :=
  if flags ≠ 0 then
    match t.find fd with
    | some e =>
      let updated := t.status_flags.map
        (fun x => if x.1 = e.description then (x.1, x.2 ||| flags) else x)
      { t with status_flags := updated }
    | none => t
  else t

/-- Source function `dup_or_fail`; `none` stands for the `abort()` of
`pipe_fail`. -/
def dup_or_fail (t : fd_table) (fd : Int) (flags : Nat) : Option (Int × fd_table) :=
  let r := t.dup fd
  let rval := r.1
  if rval < 0 then none
  else some (rval, set_flags r.2 fd flags)

/-- The data members of `pipe`. -/
structure pipe where
  fds : Int × Int
  flags : Nat × Nat
deriving DecidableEq, Repr

namespace pipe

/-- The constructor `pipe(flags0, flags1, status_flags0, status_flags1)`;
`none` stands for the `abort()` of `pipe_fail`. -/
def make (t : fd_table) (flags0 flags1 status_flags0 status_flags1 : Nat) :
    Option (pipe × fd_table) :=
  match t.sys_pipe with
  | none => none
  | some (fds, t) =>
    let t := set_flags t fds.1 flags0
    let t := set_flags t fds.2 flags1
    let t := set_status_flags t fds.1 status_flags0
    let t := set_status_flags t fds.2 status_flags1
    some ({ fds := fds, flags := (flags0, flags1) }, t)

/-- Member function `close`. -/
def close (p : pipe) (t : fd_table) : fd_table :=
  let t := if p.fds.1 ≠ -1 then t.close p.fds.1 else t
  if p.fds.2 ≠ -1 then t.close p.fds.2 else t

/-- Member function `copy(other)`: the pipe afterwards (nothing of the old
value of `*this` is kept) and the descriptor table; `none` stands for the
`abort()` of `pipe_fail`. -/
def copy (t : fd_table) (other : pipe) : Option (pipe × fd_table) :=
  match dup_or_fail t other.fds.1 other.flags.1 with
  | none => none
  | some (fd0, t) =>
    match dup_or_fail t other.fds.2 other.flags.2 with
    | none => none
    | some (fd1, t) => some ({ fds := (fd0, fd1), flags := other.flags }, t)

/-- The copy assignment `*this = other` for two different objects: `close()`
and then `copy(other)`. -/
def assign (this : pipe) (t : fd_table) (other : pipe) : Option (pipe × fd_table) :=
  copy (this.close t) other

end pipe


/-! ## `tests/cpp/mixin/connector.cc`: the connector and its middleman -/

/-- The actors of the connector test. -/
inductive test_actor where
  | self
  | aut
  | mm
deriving DecidableEq, Repr

/-- The messages of the connector test: `(peer, network_info)`,
`(connect, std::string, uint16_t)`, the reply
`(node_id, strong_actor_ptr, str_set)` and the error
`sec::cannot_connect_to_node`. -/
inductive conn_msg where
  | peer (addr : network_info)
  | connect (host : String) (port : Nat)
  | handle (node : Nat) (hdl : Nat) (interfaces : List String)
  | cannot_connect_to_node
deriving DecidableEq, Repr

/-- A message on its way or delivered: sender, receiver, content. -/
structure envelope where
  sender : test_actor
  receiver : test_actor
  content : conn_msg
deriving DecidableEq, Repr

/-- Source structure `dummy_mm_state`. -/
structure dummy_mm_state where
  i : Nat := 0
deriving DecidableEq, Repr

/-- Source function `dummy_mm`: the handler for `(connect, host, port)` of
a middleman that fails until the `n`-th request; the reply and the state
afterwards. -/
def dummy_mm (n : Nat) (peer : actor_ref) (st : dummy_mm_state) (_host : String)
    (_port : Nat) : conn_msg × dummy_mm_state :=
  let st : dummy_mm_state := { i := st.i + 1 }
  if st.i ≥ n then (.handle peer.node peer.id [], st)
  else (.cannot_connect_to_node, st)

/-- The state of the connector: the address it is connecting to, the retries
issued for it, the peerings started (`start_peering(remote_id, hdl, …)`) and
the addresses given up (`peer_unavailable`). -/
structure connector_state where
  pending : Option network_info := none
  retries : Nat := 0
  started : List (Nat × Nat) := []
  unavailable : List network_info := []
deriving DecidableEq, Repr

/-- Modelled from the spec: `mixin::connector` is defined outside the
embedded sources (only its test is there). "Contract with transport:
`connect(host, port)`": on `(peer, network_info)` the connector asks the
middleman of its cache to connect to that host and port; "on success it
hands the channel to the transport layer and records the resulting peer id";
on failure it asks again, up to a retry bound, and then reports the peer
unavailable (the delays of the backoff are not modelled). The result is the
requests sent to the middleman and the state afterwards. -/
def connector (max_retries : Nat) (st : connector_state) (msg : conn_msg) :
    List conn_msg × connector_state :=
  match msg with
  | .peer addr =>
    ([.connect addr.address addr.port], { st with pending := some addr, retries := 0 })
  | .handle node hdl _ =>
    ([], { st with pending := none, started := st.started ++ [(node, hdl)] })
  | .cannot_connect_to_node =>
    match st.pending with
    | some addr =>
      if st.retries < max_retries then
        ([.connect addr.address addr.port], { st with retries := st.retries + 1 })
      else
        ([], { st with pending := none, unavailable := st.unavailable ++ [addr] })
    | none => ([], st)
  | .connect _ _ => ([], st)

/-- The fixture of the connector test while it runs: the middleman, the
connector under test, the messages on their way and the messages delivered
so far. -/
structure connector_test where
  mm : dummy_mm_state := {}
  aut : connector_state := {}
  queue : List envelope := []
  delivered : List envelope := []
deriving DecidableEq, Repr

namespace connector_test

/-- Delivers the first message on its way (the test coordinator delivers in
order). -/
def step (n : Nat) (peer : actor_ref) (max_retries : Nat) (s : connector_test) :
    connector_test :=
  match s.queue with
  | [] => s
  | e :: rest =>
    match e.receiver with
    | .aut =>
      let r := connector max_retries s.aut e.content
      { s with aut := r.2,
               queue := rest ++ r.1.map (fun m => { sender := .aut, receiver := .mm, content := m }),
               delivered := s.delivered ++ [e] }
    | .mm =>
      match e.content with
      | .connect host port =>
        let r := dummy_mm n peer s.mm host port
        { s with mm := r.2,
                 queue := rest ++ [{ sender := .mm, receiver := e.sender, content := r.1 }],
                 delivered := s.delivered ++ [e] }
      | _ => { s with queue := rest, delivered := s.delivered ++ [e] }
    | .self => { s with queue := rest, delivered := s.delivered ++ [e] }

/-- Runs the test for `fuel` deliveries. -/
def run (n : Nat) (peer : actor_ref) (max_retries : Nat) : Nat → connector_test → connector_test
  | 0, s => s
  | fuel + 1, s => run n peer max_retries fuel (step n peer max_retries s)

/-- The test after `self->send(aut, atom::peer_v, addr)`. -/
def start (addr : network_info) : connector_test :=
  { queue := [{ sender := .self, receiver := .aut, content := .peer addr }] }

end connector_test


/-! ## `tests/benchmark/broker-cluster-benchmark.cc`: the loop check -/

/-- Source constant `max_nodes`. -/
def max_nodes : Nat := 500

/-- The nodes of the cluster, each named by its position in the vector
`nodes`: for every node the nodes that its `peers` name, in order (what
`node_by_name` finds for them). -/
structure cluster where
  peers : List (List Nat)
deriving DecidableEq, Repr

namespace cluster

/-- The number of nodes, `nodes.size()`. -/
def size (c : cluster) : Nat := c.peers.length

/-- The field `right` of node `x` after the node tree is built: its peers. -/
def right (c : cluster) (x : Nat) : List Nat := c.peers.getD x []

/-- The field `left` of node `y` after the node tree is built: a node `x` for
every time `y` occurs among the peers of `x`, in the order of the loop over
the nodes. -/
def left (c : cluster) (y : Nat) : List Nat :=
  (List.range c.size).flatMap
    (fun x => (c.right x).filterMap (fun p => if p = y then some x else none))

/-- Every name among the peers is the name of a node (`node_by_name` exits
otherwise). -/
def well_formed (c : cluster) : Prop :=
  ∀ row ∈ c.peers, ∀ y ∈ row, y < c.size

instance (c : cluster) : Decidable c.well_formed := by
  unfold well_formed
  infer_instance

end cluster

/-- Source functions `max_left_depth` and `max_right_depth`, which differ in
the field they follow (`adj` is `left` or `right`). -/
def max_depth (adj : Nat → List Nat) (x : Nat) (interim : Nat) : Nat :=
  if interim > max_nodes then interim
  else (adj x).foldl (fun result y => max result (max_depth adj y (interim + 1))) interim
termination_by max_nodes + 1 - interim
decreasing_by
  simp_wf
  omega

/-- Source function `max_left_depth`. -/
def max_left_depth (c : cluster) (x : Nat) (interim : Nat := 0) : Nat :=
  max_depth c.left x interim

/-- Source function `max_right_depth`. -/
def max_right_depth (c : cluster) (x : Nat) (interim : Nat := 0) : Nat :=
  max_depth c.right x interim

/-- The loop check of `main`: some node has a left or right depth above
`nodes.size() - 1`. -/
def loop_check (c : cluster) : Bool :=
  (List.range c.size).any (fun x =>
    decide (max_left_depth c x > c.size - 1) || decide (max_right_depth c x > c.size - 1))

/-- The depth function with the levels left to descend as its recursion
argument; it computes `max_depth` (see `max_depth_eq_levels`). -/
def max_depth_levels (adj : Nat → List Nat) : Nat → Nat → Nat → Nat
  | 0, _, interim => interim
  | levels + 1, x, interim =>
    (adj x).foldl (fun result y => max result (max_depth_levels adj levels y (interim + 1)))
      interim

/-- A walk in a directed graph: every vertex is followed by one of its
successors. -/
def is_walk (adj : Nat → List Nat) (path : List Nat) : Prop :=
  List.Chain' (fun a b => b ∈ adj a) path

/-- The directed graph of the right edges contains a cycle: a walk of at
least one edge from a node back to itself. -/
def has_cycle (c : cluster) : Prop :=
  ∃ a mid, is_walk c.right (a :: mid ++ [a])


/-! ## Concrete inputs -/

/-- A host on which the configuration file sets both verbosities, the
environment sets the console verbosity, the file verbosity and the recording
directory, and the command line sets the file verbosity. -/
def precedence_env : host_env where
  getenv := fun k =>
    if k = "BROKER_CONSOLE_VERBOSITY" then some "info"
    else if k = "BROKER_FILE_VERBOSITY" then some "error"
    else if k = "BROKER_RECORDING_DIRECTORY" then some "/var/log/rec"
    else if k = "BROKER_OUTPUT_GENERATOR_FILE_CAP" then some "250"
    else none
  parse_conf := fun _ =>
    .ok [(console_verbosity_key, .string "debug"), (file_verbosity_key, .string "warning"),
         ("broker.recording-directory", .string "/tmp"),
         ("broker.output-generator-file-cap", .integer 7)]
  parse_cli := fun _ => .ok [(file_verbosity_key, .string "trace")]

/-- The command line of the concrete run. -/
def precedence_argv : List String :=
  ["broker-node", "--config-file=node.conf", "--caf.logger.file.verbosity=trace"]

/-- The configuration that `init` returns on the concrete run. -/
def precedence_result : configuration where
  options_ := { disable_ssl := false, disable_forwarding := false, ignore_broker_conf := false }
  content :=
    [("caf.logger.file.verbosity", .string "trace"),
     ("broker.output-generator-file-cap", .integer 250),
     ("broker.recording-directory", .string "/var/log/rec"),
     ("caf.logger.console.verbosity", .string "info"),
     ("caf.logger.console.excluded-components",
       .string_list ["caf", "caf_io", "caf_net", "caf_flow", "caf_stream"]),
     ("caf.middleman.workers", .integer 0),
     ("caf.middleman.app-identifiers", .string_list ["broker.v1"]),
     ("caf.logger.console.format", .string "[%c/%p] %d %m"),
     ("caf.logger.file.path", .string "broker_[PID]_[TIMESTAMP].log"),
     ("broker.disable-forwarding", .boolean false),
     ("broker.disable-ssl", .boolean false)]
  modules := ["caf::io::middleman", "caf::openssl::manager"]

/-- A host whose environment sets the variables named after the options
that `init` does not read; both parsers set nothing. -/
def mirror_env : host_env where
  getenv := fun k =>
    if k = "BROKER_DISABLE_SSL" then some "true"
    else if k = "BROKER_DISABLE_FORWARDING" then some "true"
    else if k = "BROKER_TICK_INTERVAL" then some "50ms"
    else if k = "BROKER_HEARTBEAT_INTERVAL" then some "5"
    else if k = "BROKER_NACK_TIMEOUT" then some "7"
    else if k = "BROKER_CONNECTION_TIMEOUT" then some "9"
    else none
  parse_conf := fun _ => .ok []
  parse_cli := fun _ => .ok []

/-- A publisher on topic `a/b` whose queue holds `queue_size` items. -/
def full_publisher : publisher where
  queue_ := { xs := List.replicate queue_size (⟨"a/b"⟩, "x") }
  topic_ := ⟨"a/b"⟩

/-- A publisher on topic `a/b` whose queue is empty. -/
def idle_publisher : publisher where
  topic_ := ⟨"a/b"⟩

/-- A host whose environment sets `BROKER_OUTPUT_GENERATOR_FILE_CAP` to `v`
and nothing else; both parsers set nothing. -/
def cap_env (v : String) : host_env where
  getenv := fun k => if k = "BROKER_OUTPUT_GENERATOR_FILE_CAP" then some v else none
  parse_conf := fun _ => .ok []
  parse_cli := fun _ => .ok []

/-- A process with the three standard descriptors open. -/
def std_fds : fd_table where
  entries := [(0, { description := 0, fd_flags := 0 }),
              (1, { description := 1, fd_flags := 0 }),
              (2, { description := 2, fd_flags := 0 })]
  status_flags := [(0, 0), (1, 1), (2, 1)]
  descriptions := 3


/-- Three nodes that peer in a ring: `0 → 1 → 2 → 0`. -/
def ring_cluster : cluster where
  peers := [[1], [2], [0]]

/-- Four nodes without a loop: `0 → 1`, `0 → 2`, `1 → 3`, `2 → 3`. -/
def diamond_cluster : cluster where
  peers := [[1, 2], [3], [3], []]


/-! ## Lemmas on the send rate -/

theorem accumulate_eq_sum_mod (xs : List Nat) :
    accumulate xs = xs.sum % size_t_mod := by
  have key : ∀ (ys : List Nat) (a : Nat),
      ys.foldl (fun acc x => (acc + x) % size_t_mod) (a % size_t_mod)
        = (a + ys.sum) % size_t_mod := by
    intro ys
    induction ys with
    | nil => intro a; simp
    | cons y ys ih =>
      intro a
      simp only [List.foldl_cons, List.sum_cons]
      rw [ih (a % size_t_mod + y)]
      rw [Nat.add_assoc, Nat.mod_add_mod]
  have h := key xs 0
  simpa [accumulate] using h

theorem set_back_rotate (x : Nat) (rest : List Nat) (v : Nat) :
    set_back (rotate_left_one (x :: rest)) v = rest ++ [v] := by
  cases rest with
  | nil => simp [rotate_left_one, set_back]
  | cons y ys =>
    simp only [rotate_left_one, set_back, List.cons_append]
    rw [← List.cons_append, List.dropLast_concat]
    rfl

theorem window_length (cs : List Nat) :
    (window cs).length = min cs.length sample_size := by
  simp only [window, List.length_drop]
  omega

theorem after_ticks_snoc (cs : List Nat) (c : Nat) :
    publisher_worker_state.after_ticks (cs ++ [c])
      = (publisher_worker_state.after_ticks cs).tick_with c := by
  simp [publisher_worker_state.after_ticks, List.foldl_append]

theorem after_ticks_buf (cs : List Nat) :
    (publisher_worker_state.after_ticks cs).buf = window cs := by
  induction cs using List.reverseRecOn with
  | nil => simp [publisher_worker_state.after_ticks, window]
  | append_singleton cs c ih =>
    rw [after_ticks_snoc]
    simp only [publisher_worker_state.tick_with, publisher_worker_state.tick, ih,
      window_length]
    by_cases hlt : cs.length < sample_size
    · have h1 : min cs.length sample_size < sample_size := by omega
      rw [if_pos h1]
      simp only [window, List.length_append, List.length_singleton]
      have e1 : cs.length - min cs.length sample_size = 0 := by omega
      have e2 : cs.length + 1 - min (cs.length + 1) sample_size = 0 := by omega
      simp [e1, e2]
    · have h1 : ¬ min cs.length sample_size < sample_size := by omega
      rw [if_neg h1]
      simp only [window, List.length_append, List.length_singleton]
      have hlen : cs.length - min cs.length sample_size < cs.length := by
        simp only [sample_size] at hlt ⊢; omega
      have e2 : cs.length + 1 - min (cs.length + 1) sample_size
          = (cs.length - min cs.length sample_size) + 1 := by omega
      rw [e2, List.drop_append_of_le_length (by omega)]
      rw [List.drop_eq_getElem_cons hlen, set_back_rotate]

theorem tick_counter (st : publisher_worker_state) : st.tick.counter = 0 := by
  unfold publisher_worker_state.tick
  split <;> rfl

theorem after_ticks_counter (cs : List Nat) :
    (publisher_worker_state.after_ticks cs).counter = 0 := by
  induction cs using List.reverseRecOn with
  | nil => rfl
  | append_singleton cs c _ =>
    rw [after_ticks_snoc]
    exact tick_counter _

/-- The exact value of `rate()` after any run of ticks, `size_t` wrap-around
included. -/
theorem rate_after_ticks_exact (cs : List Nat) :
    (publisher_worker_state.after_ticks cs).rate
      = if cs.length = 0 then 0
        else ((window cs).sum % size_t_mod) / min cs.length sample_size := by
  simp only [publisher_worker_state.rate, after_ticks_buf, accumulate_eq_sum_mod,
    window_length]
  cases cs with
  | nil => simp [window]
  | cons c cs =>
    have hne : window (c :: cs) ≠ [] := by
      intro h
      have := window_length (c :: cs)
      rw [h] at this
      simp only [List.length_nil, List.length_cons, sample_size] at this
      omega
    simp [hne]

/-- Counterexample to C1 as stated: two ticks with a count of `2^63` each.
The sum of the two samples is `2^64`, which `std::accumulate` over `size_t`
wraps to `0`, so `rate()` is `0`, while the floor of the sum of the last
`min 2 10` counts divided by `min 2 10` is `2^63`. -/
theorem rate_wraps_with_size_t :
    (publisher_worker_state.after_ticks [2 ^ 63, 2 ^ 63]).rate = 0
      ∧ (([2 ^ 63, 2 ^ 63] : List Nat).drop
            (([2 ^ 63, 2 ^ 63] : List Nat).length
              - min ([2 ^ 63, 2 ^ 63] : List Nat).length 10)).sum
          / min ([2 ^ 63, 2 ^ 63] : List Nat).length 10 = 2 ^ 63
      ∧ (publisher_worker_state.after_ticks [2 ^ 63, 2 ^ 63]).rate
          ≠ (([2 ^ 63, 2 ^ 63] : List Nat).drop
                (([2 ^ 63, 2 ^ 63] : List Nat).length
                  - min ([2 ^ 63, 2 ^ 63] : List Nat).length 10)).sum
              / min ([2 ^ 63, 2 ^ 63] : List Nat).length 10 := by
  refine ⟨by decide, by decide, by decide⟩

/-- C1 (as the code has it): after `k` ticks with per-second counts
`c_1..c_k`, `rate()` is `0` for `k = 0` and otherwise the floor of `S`
divided by `min k 10`, where `S` is the sum of the last `min k 10` counts
reduced modulo `2^64` (the sum is taken in `size_t`); whenever that sum is
below `2^64`, `rate()` is the floor of the sum of the last `min k 10` counts
divided by `min k 10`; every `tick()` leaves `counter` at `0`. -/
theorem rate_is_moving_average (cs : List Nat) :
    (publisher_worker_state.after_ticks cs).rate
        = (if cs.length = 0 then 0
           else ((cs.drop (cs.length - min cs.length 10)).sum % 2 ^ 64)
                  / min cs.length 10)
      ∧ ((cs.drop (cs.length - min cs.length 10)).sum < 2 ^ 64 →
          (publisher_worker_state.after_ticks cs).rate
            = (if cs.length = 0 then 0
               else (cs.drop (cs.length - min cs.length 10)).sum / min cs.length 10))
      ∧ (publisher_worker_state.after_ticks cs).counter = 0
      ∧ ∀ st : publisher_worker_state, st.tick.counter = 0 := by
  refine ⟨?_, ?_, after_ticks_counter cs, tick_counter⟩
  · rw [rate_after_ticks_exact]
    rfl
  · intro hfit
    have hfit2 : (window cs).sum < size_t_mod := hfit
    rw [rate_after_ticks_exact, Nat.mod_eq_of_lt hfit2]
    rfl

/-- Witness for C1: twelve ticks, so that the two oldest samples have left
the window; the window sum is 75 and the rate is 7. -/
theorem rate_is_moving_average_witness :
    ([100, 200, 1, 2, 3, 4, 5, 6, 7, 8, 9, 30].drop
        ([100, 200, 1, 2, 3, 4, 5, 6, 7, 8, 9, 30].length
          - min [100, 200, 1, 2, 3, 4, 5, 6, 7, 8, 9, 30].length 10)).sum < 2 ^ 64
      ∧ (publisher_worker_state.after_ticks
          [100, 200, 1, 2, 3, 4, 5, 6, 7, 8, 9, 30]).rate = 7 :=
  ⟨by decide,
   ((rate_is_moving_average [100, 200, 1, 2, 3, 4, 5, 6, 7, 8, 9, 30]).2.1
      (by decide)).trans (by decide)⟩

/-! ## Lemmas on the item stash -/

theorem ptr_vector.size_reserve (v : ptr_vector) (n : Nat) :
    (v.reserve n).elems = v.elems := by
  unfold ptr_vector.reserve
  split <;> rfl

theorem ptr_vector.resize_empty (n : Nat) :
    (({} : ptr_vector).resize n).elems = List.replicate n nullptr := by
  cases n with
  | zero => simp [ptr_vector.resize, ptr_vector.size]
  | succ k => simp [ptr_vector.resize, ptr_vector.size, ptr_vector.insert_end]

theorem item_stash.replenish_ok_elems (s : item_stash) (n : Nat) (f : Nat → item_ptr) :
    (s.replenish n (.ok f)).2.stash_.elems = s.stash_.elems ++ (List.range n).map f
      ∧ (s.replenish n (.ok f)).2.max_stash_size_ = s.max_stash_size_ + n := by
  simp [item_stash.replenish, ptr_vector.fill_span, ptr_vector.insert_end,
    ptr_vector.size, ptr_vector.size_reserve]

theorem item_stash.replenish_error_elems (s : item_stash) (n : Nat) (e : cpp_exception) :
    (s.replenish n (.error e)).2.stash_.elems = s.stash_.elems
      ∧ (s.replenish n (.error e)).2.max_stash_size_ = s.max_stash_size_ := by
  simp [item_stash.replenish, ptr_vector.erase_from, ptr_vector.insert_end,
    ptr_vector.size, ptr_vector.size_reserve]

theorem item_stash.available_replenish (s : item_stash) (n : Nat) (alloc : alloc_outcome) :
    (s.replenish n alloc).2.available + s.max_stash_size_
      = s.available + (s.replenish n alloc).2.max_stash_size_ := by
  cases alloc with
  | error e =>
    obtain ⟨h1, h2⟩ := item_stash.replenish_error_elems s n e
    simp only [item_stash.available, ptr_vector.size, h1, h2]
  | ok f =>
    obtain ⟨h1, h2⟩ := item_stash.replenish_ok_elems s n f
    simp only [item_stash.available, ptr_vector.size, h1, h2, List.length_append,
      List.length_map, List.length_range]
    omega

theorem item_stash.make_available (alloc : alloc_outcome) (n : Nat) (s : item_stash)
    (h : item_stash.make alloc n = .ok s) :
    s.available = n ∧ s.max_stash_size_ = n := by
  unfold item_stash.make at h
  by_cases hpos : n > 0
  · rw [if_pos hpos] at h
    cases alloc with
    | error e => simp at h
    | ok f =>
      simp only [Except.ok.injEq] at h
      subst h
      simp [item_stash.available, ptr_vector.size, ptr_vector.fill_span,
        ptr_vector.resize_empty]
  · rw [if_neg hpos] at h
    simp only [Except.ok.injEq] at h
    subst h
    simp only [item_stash.available, ptr_vector.size, List.length_nil]
    omega

theorem item_stash.next_cases (s : item_stash) :
    (s.stash_.elems = [] ∧ s.next
        = (.error (.out_of_range "item_stash::next called with available() == 0"), s))
      ∨ (∃ front p, s.stash_.elems = front ++ [p] ∧ s.next
        = (.ok p, { s with stash_ := { s.stash_ with elems := front } })) := by
  rcases List.eq_nil_or_concat s.stash_.elems with h | ⟨front, p, h⟩
  · left
    refine ⟨h, ?_⟩
    simp [item_stash.next, ptr_vector.empty, h]
  · right
    rw [List.concat_eq_append] at h
    refine ⟨front, p, h, ?_⟩
    simp [item_stash.next, ptr_vector.empty, ptr_vector.back, ptr_vector.pop_back, h]

theorem pool.step_conserved (q q1 : pool) (op : pool_op)
    (hstep : q.step op = some q1)
    (h1 : q.stash.available + q.live.length = q.stash.max_stash_size_)
    (h2 : q.reclaimed + q.live.length = q.acquired) :
    q1.stash.available + q1.live.length = q1.stash.max_stash_size_
      ∧ q1.reclaimed + q1.live.length = q1.acquired := by
  cases op with
  | replenish n alloc =>
    simp only [pool.step, Option.some.injEq] at hstep
    subst hstep
    have h := item_stash.available_replenish q.stash n alloc
    refine ⟨?_, h2⟩
    simp only
    omega
  | next =>
    simp only [pool.step] at hstep
    rcases item_stash.next_cases q.stash with ⟨_, hn⟩ | ⟨front, p, he, hn⟩
    · rw [hn] at hstep
      simp only [Option.some.injEq] at hstep
      subst hstep
      exact ⟨h1, h2⟩
    · rw [hn] at hstep
      simp only [Option.some.injEq] at hstep
      subst hstep
      simp only [item_stash.available, ptr_vector.size, he, List.length_append,
        List.length_singleton, List.length_cons, List.length_nil] at h1 ⊢
      constructor <;> omega
  | reclaim p =>
    simp only [pool.step] at hstep
    by_cases hp : p ∈ q.live
    · rw [if_pos hp] at hstep
      simp only [Option.some.injEq] at hstep
      subst hstep
      have hpos : 0 < q.live.length := List.length_pos_of_mem hp
      simp only [item_stash.available, ptr_vector.size, item_stash.reclaim,
        ptr_vector.push_back, List.length_append, List.length_singleton,
        List.length_erase_of_mem hp] at h1 ⊢
      constructor <;> omega
    · rw [if_neg hp] at hstep
      exact absurd hstep (by simp)

theorem pool.run_conserved (ops : List pool_op) (q q1 : pool)
    (hrun : q.run ops = some q1)
    (h1 : q.stash.available + q.live.length = q.stash.max_stash_size_)
    (h2 : q.reclaimed + q.live.length = q.acquired) :
    q1.stash.available + q1.live.length = q1.stash.max_stash_size_
      ∧ q1.reclaimed + q1.live.length = q1.acquired := by
  induction ops generalizing q with
  | nil =>
    simp only [pool.run, Option.some.injEq] at hrun
    subst hrun
    exact ⟨h1, h2⟩
  | cons op ops ih =>
    simp only [pool.run] at hrun
    cases hs : q.step op with
    | none => rw [hs] at hrun; exact absurd hrun (by simp)
    | some q2 =>
      rw [hs] at hrun
      obtain ⟨g1, g2⟩ := pool.step_conserved q q2 op hs h1 h2
      exact ih q2 hrun g1 g2

/-- C2 (as the code has it): `next_item` throws `std::out_of_range` and leaves
the stash as it is when the free list is empty; otherwise it returns an item
built from its arguments in the last slot of the free list, removes that slot
from the free list and leaves `max_stash_size_` alone (no new slot is
obtained). -/
theorem next_item_returns_pooled_slot_or_throws (s : item_stash) (msg : String)
    (msg_ttl origin : Nat) (scope : item_scope) :
    (s.available = 0 ∧ s.next_item msg msg_ttl origin scope
        = (.error (.out_of_range "item_stash::next called with available() == 0"), s))
      ∨ (∃ front p, s.stash_.elems = front ++ [p]
          ∧ s.next_item msg msg_ttl origin scope
            = (.ok ⟨p, msg, msg_ttl, origin, scope⟩,
               { stash_ := { elems := front, capacity := s.stash_.capacity },
                 max_stash_size_ := s.max_stash_size_ })) := by
  rcases item_stash.next_cases s with ⟨he, hn⟩ | ⟨front, p, he, hn⟩
  · left
    refine ⟨by simp [item_stash.available, ptr_vector.size, he], ?_⟩
    simp only [item_stash.next_item, hn]
  · right
    refine ⟨front, p, he, ?_⟩
    simp only [item_stash.next_item, hn]

/-- Counterexample to C2 as stated: on the stash `make(allocator, 0)`, and on
a stash of one slot whose slot is handed out, `next_item` throws
`std::out_of_range` instead of returning an item. -/
theorem next_item_fails_on_empty_stash :
    item_stash.make (.ok (fun j => 4096 + j)) 0 = .ok {}
      ∧ (({} : item_stash).next_item "msg" 16 0 0).1
          = .error (.out_of_range "item_stash::next called with available() == 0")
      ∧ item_stash.make (.ok (fun j => 4096 + j)) 1
          = .ok { stash_ := { elems := [4096], capacity := 1 }, max_stash_size_ := 1 }
      ∧ (item_stash.next
            { stash_ := { elems := [4096], capacity := 1 }, max_stash_size_ := 1 })
          = (.ok 4096, { stash_ := { elems := [], capacity := 1 }, max_stash_size_ := 1 })
      ∧ (item_stash.next_item
            { stash_ := { elems := [], capacity := 1 }, max_stash_size_ := 1 }
            "msg" 16 0 0).1
          = .error (.out_of_range "item_stash::next called with available() == 0") := by
  refine ⟨rfl, rfl, rfl, rfl, rfl⟩

/-- C3: from `make(allocator, n)`, after any sequence of `replenish` (succeeding
or throwing), `next` and `reclaim` of handed-out slots, the free list and the
handed-out slots together number `max_stash_size_`, the reclaimed slots number
the acquired ones minus the live ones, and with no live slot the free list
holds `max_stash_size_` slots. -/
theorem pool_conservation (alloc : alloc_outcome) (n : Nat) (s0 : item_stash)
    (ops : List pool_op) (q : pool)
    (hmake : item_stash.make alloc n = .ok s0)
    (hrun : pool.run { stash := s0 } ops = some q) :
    q.stash.available + q.live.length = q.stash.max_stash_size_
      ∧ q.reclaimed = q.acquired - q.live.length
      ∧ q.live.length ≤ q.acquired
      ∧ (q.live = [] → q.stash.available = q.stash.max_stash_size_) := by
  obtain ⟨ha, hm⟩ := item_stash.make_available alloc n s0 hmake
  have h := pool.run_conserved ops { stash := s0 } q hrun
    (by simp only [List.length_nil]; omega) (by simp)
  obtain ⟨g1, g2⟩ := h
  refine ⟨g1, by omega, by omega, ?_⟩
  intro hl
  rw [hl] at g1
  simpa using g1

/-- Witness for C3: a stash of two slots that is drawn from, replenished by
three, drawn from again, given one slot back, hit by a failing `replenish`
and drawn from once more: three free slots and two live ones, five in all. -/
theorem pool_conservation_witness :
    item_stash.make (.ok (fun j => 4096 + 64 * j)) 2
        = .ok { stash_ := { elems := [4096, 4160], capacity := 2 }, max_stash_size_ := 2 }
      ∧ pool.run
          { stash := { stash_ := { elems := [4096, 4160], capacity := 2 },
                       max_stash_size_ := 2 } }
          [.next, .replenish 3 (.ok (fun j => 8192 + 64 * j)), .next, .reclaim 4160,
            .replenish 1 (.error .bad_alloc), .next]
        = some { stash := { stash_ := { elems := [4096, 8192, 8256], capacity := 6 },
                            max_stash_size_ := 5 },
                 live := [4160, 8320], acquired := 3, reclaimed := 1 }
      ∧ (3 + 2 = 5 ∧ 1 = 3 - 2 ∧ 2 ≤ 3) :=
  ⟨rfl, rfl,
   have h := pool_conservation (.ok (fun j => 4096 + 64 * j)) 2
     { stash_ := { elems := [4096, 4160], capacity := 2 }, max_stash_size_ := 2 }
     [.next, .replenish 3 (.ok (fun j => 8192 + 64 * j)), .next, .reclaim 4160,
       .replenish 1 (.error .bad_alloc), .next]
     { stash := { stash_ := { elems := [4096, 8192, 8256], capacity := 6 },
                  max_stash_size_ := 5 },
       live := [4160, 8320], acquired := 3, reclaimed := 1 }
     rfl rfl
   ⟨h.1, h.2.1, h.2.2.1⟩⟩

/-! ## Lemmas on settings and `set` -/

theorem settings.get_if_put_same (xs : settings) (key : String) (v : config_value) :
    (xs.put key v).get_if key = some v := by
  simp [settings.put, settings.get_if, List.lookup]

theorem settings.lookup_filter_ne (xs : settings) (key k : String) (h : k ≠ key) :
    (xs.filter (fun e => e.1 != key)).lookup k = xs.lookup k := by
  induction xs with
  | nil => rfl
  | cons e xs ih =>
    obtain ⟨a, b⟩ := e
    by_cases ha : a = key
    · subst ha
      have hka : (k == a) = false := by simpa using h
      simp [List.filter, List.lookup, hka, ih]
    · have hne : (a != key) = true := by simpa using ha
      simp only [List.filter, hne, List.lookup]
      cases hk : (k == a) with
      | true => rfl
      | false => exact ih

theorem settings.get_if_put_other (xs : settings) (key k : String) (v : config_value)
    (h : k ≠ key) : (xs.put key v).get_if k = xs.get_if k := by
  have hk : (k == key) = false := by simpa using h
  simp only [settings.put, settings.get_if, List.lookup, hk]
  exact settings.lookup_filter_ne xs key k h

theorem settings.get_if_put_missing (xs : settings) (key : String) (v : config_value) :
    (xs.put_missing key v).get_if key
      = some ((xs.get_if key).getD v) := by
  unfold settings.put_missing
  cases h : xs.get_if key with
  | none => simp [settings.get_if_put_same]
  | some w => simp [h]

theorem settings.get_if_put_missing_other (xs : settings) (key k : String)
    (v : config_value) (h : k ≠ key) :
    (xs.put_missing key v).get_if k = xs.get_if k := by
  unfold settings.put_missing
  split
  · rfl
  · exact settings.get_if_put_other xs key k v h

theorem configuration.get_if_set_same (cfg : configuration) (key : String)
    (v : config_value) : (cfg.set key v).content.get_if key = some v :=
  settings.get_if_put_same _ _ _

theorem configuration.get_if_set_other (cfg : configuration) (key k : String)
    (v : config_value) (h : k ≠ key) :
    (cfg.set key v).content.get_if k = cfg.content.get_if k :=
  settings.get_if_put_other _ _ _ _ h

theorem last_assigned_snoc (es : List (String × config_value)) (e : String × config_value)
    (key : String) :
    last_assigned (es ++ [e]) key
      = if e.1 = key then some e.2 else last_assigned es key := by
  simp [last_assigned, List.foldl_append]

theorem configuration.get_if_set_all (es : List (String × config_value))
    (cfg : configuration) (key : String) :
    (cfg.set_all es).content.get_if key
      = match last_assigned es key with
        | some v => some v
        | none => cfg.content.get_if key := by
  induction es using List.reverseRecOn with
  | nil => simp [configuration.set_all, last_assigned]
  | append_singleton es e ih =>
    have hfold : cfg.set_all (es ++ [e]) = (cfg.set_all es).set e.1 e.2 := by
      simp [configuration.set_all, List.foldl_append]
    rw [hfold, last_assigned_snoc]
    by_cases hk : e.1 = key
    · rw [if_pos hk, ← hk]
      exact configuration.get_if_set_same _ _ _
    · rw [if_neg hk, configuration.get_if_set_other _ _ _ _ (Ne.symm hk)]
      exact ih

/-- What `dump_content` reports for `disable-forwarding` when the inherited
dump has no such entry: the value of `options_.disable_ssl`. -/
theorem configuration.dump_content_disable_forwarding (cfg : configuration)
    (inherited : settings) (aging_interval max_age : Int)
    (h : inherited.get_if "broker.disable-forwarding" = none) :
    (cfg.dump_content inherited aging_interval max_age).get_if "broker.disable-forwarding"
      = some (.boolean cfg.options_.disable_ssl) := by
  unfold configuration.dump_content
  simp only []
  rw [settings.get_if_put_missing_other _ _ _ _ (by decide),
    settings.get_if_put_missing_other _ _ _ _ (by decide)]
  have h2 : ((inherited.put_missing "broker.disable-ssl"
      (.boolean cfg.options_.disable_ssl)).put_missing "broker.disable-forwarding"
      (.boolean cfg.options_.disable_ssl)).get_if "broker.disable-forwarding"
      = some (.boolean cfg.options_.disable_ssl) := by
    rw [settings.get_if_put_missing, settings.get_if_put_missing_other _ _ _ _ (by decide), h]
    rfl
  split <;> split <;>
    simp only [settings.get_if_put_missing_other _ _ _ _
      (show "broker.disable-forwarding" ≠ "broker.recording-directory" by decide),
      settings.get_if_put_missing_other _ _ _ _
      (show "broker.disable-forwarding" ≠ "broker.output-generator-file-cap" by decide), h2]

/-- C4: on a configuration with `disable_ssl = false` and
`disable_forwarding = true` whose inherited dump has no `broker` entries,
`dump_content` reports `broker.disable-forwarding = false` (the value of
`disable_ssl`), while `sync_options` stores `true` for the same key. -/
theorem dump_content_reports_disable_ssl_for_disable_forwarding :
    (configuration.dump_content
        { options_ := { disable_ssl := false, disable_forwarding := true } }
        [] 1000000000 300000000000).get_if "broker.disable-forwarding"
        = some (.boolean false)
      ∧ (configuration.dump_content
        { options_ := { disable_ssl := false, disable_forwarding := true } }
        [] 1000000000 300000000000).get_if "broker.disable-ssl"
        = some (.boolean false)
      ∧ (configuration.sync_options
        { options_ := { disable_ssl := false, disable_forwarding := true } }).content.get_if
          "broker.disable-forwarding"
        = some (.boolean true) := by
  refine ⟨by decide, by decide, by decide⟩

/-! ## Lemmas on `init` -/

theorem configuration.init_ok_iff (cfg cfg' : configuration) (env : host_env)
    (argv : Option (List String)) :
    cfg.init env argv = .ok cfg'
      ↔ ∃ c1 args1 c2,
          cfg.init_load.init_phase1 env (configuration.init_args argv) = .ok (c1, args1)
            ∧ c1.init_phase2 env = .ok c2
            ∧ c2.init_phase3 env args1 = .ok cfg' := by
  unfold configuration.init
  cases h1 : cfg.init_load.init_phase1 env (configuration.init_args argv) with
  | error e => simp [bind, Except.bind, h1]
  | ok r =>
    obtain ⟨c1, args1⟩ := r
    cases h2 : c1.init_phase2 env with
    | error e => simp [bind, Except.bind, h1, h2]
    | ok c2 =>
      simp only [bind, Except.bind, h1, h2]
      constructor
      · intro h
        exact ⟨c1, args1, c2, rfl, h2, h⟩
      · rintro ⟨d1, a1, d2, heq, hd2, hd3⟩
        simp only [Except.ok.injEq, Prod.mk.injEq] at heq
        obtain ⟨rfl, rfl⟩ := heq
        rw [h2] at hd2
        simp only [Except.ok.injEq] at hd2
        subst hd2
        exact hd3

theorem configuration.init_phase3_ok (cfg c1 c2 cfg' : configuration) (env : host_env)
    (argv : Option (List String)) (args1 : List String)
    (h1 : cfg.init_load.init_phase1 env (configuration.init_args argv) = .ok (c1, args1))
    (h3 : c2.init_phase3 env args1 = .ok cfg') :
    cfg' = c2.set_all (cli_entries cfg env argv) := by
  unfold cli_entries
  rw [h1]
  unfold configuration.init_phase3 at h3
  simp only []
  by_cases hargs : (!args1.isEmpty) = true
  · rw [if_pos hargs] at h3 ⊢
    cases hp : env.parse_cli args1 with
    | error e => rw [hp] at h3; simp at h3
    | ok es =>
      rw [hp] at h3
      simp only [Except.ok.injEq] at h3
      exact h3.symm
  · rw [if_neg hargs] at h3 ⊢
    simp only [Except.ok.injEq] at h3
    simp [configuration.set_all, h3]

theorem configuration.set_all_append (cfg : configuration)
    (xs ys : List (String × config_value)) :
    cfg.set_all (xs ++ ys) = (cfg.set_all xs).set_all ys := by
  simp [configuration.set_all, List.foldl_append]

theorem configuration.env_console_verbosity_eq (cfg : configuration) (env : host_env) :
    cfg.env_console_verbosity env
      = match verbosity_entry env "BROKER_CONSOLE_VERBOSITY" console_verbosity_key with
        | .error e => .error e
        | .ok a => .ok (cfg.set_all a) := by
  unfold configuration.env_console_verbosity verbosity_entry
  cases env.getenv "BROKER_CONSOLE_VERBOSITY" with
  | none => rfl
  | some s =>
    simp only []
    cases to_log_level "BROKER_CONSOLE_VERBOSITY" s <;> rfl

theorem configuration.env_file_verbosity_eq (cfg : configuration) (env : host_env) :
    cfg.env_file_verbosity env
      = match verbosity_entry env "BROKER_FILE_VERBOSITY" file_verbosity_key with
        | .error e => .error e
        | .ok a => .ok (cfg.set_all a) := by
  unfold configuration.env_file_verbosity verbosity_entry
  cases env.getenv "BROKER_FILE_VERBOSITY" with
  | none => rfl
  | some s =>
    simp only []
    cases to_log_level "BROKER_FILE_VERBOSITY" s <;> rfl

theorem configuration.env_recording_directory_eq (cfg : configuration) (env : host_env) :
    cfg.env_recording_directory env = cfg.set_all (recording_directory_entry env) := by
  unfold configuration.env_recording_directory recording_directory_entry
  cases env.getenv "BROKER_RECORDING_DIRECTORY" <;> rfl

theorem configuration.env_output_generator_file_cap_eq (cfg : configuration)
    (env : host_env) :
    cfg.env_output_generator_file_cap env
      = match file_cap_entry env with
        | .error e => .error e
        | .ok a => .ok (cfg.set_all a) := by
  unfold configuration.env_output_generator_file_cap file_cap_entry
  cases env.getenv "BROKER_OUTPUT_GENERATOR_FILE_CAP" with
  | none => rfl
  | some s =>
    simp only []
    cases configuration.output_generator_file_cap s env.errno <;> rfl

theorem configuration.init_phase2_eq (cfg : configuration) (env : host_env) :
    cfg.init_phase2 env
      = match env_entries env with
        | .error e => .error e
        | .ok es => .ok (cfg.set_all es) := by
  unfold configuration.init_phase2 env_entries
  simp only [bind, Except.bind, configuration.env_console_verbosity_eq,
    configuration.env_file_verbosity_eq, configuration.env_recording_directory_eq,
    configuration.env_output_generator_file_cap_eq]
  cases verbosity_entry env "BROKER_CONSOLE_VERBOSITY" console_verbosity_key with
  | error e => rfl
  | ok a =>
    cases verbosity_entry env "BROKER_FILE_VERBOSITY" file_verbosity_key with
    | error e => rfl
    | ok b =>
      cases file_cap_entry env with
      | error e => rfl
      | ok d => simp only [configuration.set_all_append]

theorem last_assigned_append (xs ys : List (String × config_value)) (key : String) :
    last_assigned (xs ++ ys) key
      = match last_assigned ys key with
        | some v => some v
        | none => last_assigned xs key := by
  induction ys using List.reverseRecOn with
  | nil => simp [last_assigned]
  | append_singleton ys e ih =>
    rw [← List.append_assoc, last_assigned_snoc, last_assigned_snoc]
    by_cases hk : e.1 = key
    · simp [hk]
    · simp only [hk, if_false]
      exact ih

theorem to_log_level_ok (var s level : String) (h : to_log_level var s = .ok level) :
    valid_log_level s = true ∧ level = s := by
  unfold to_log_level at h
  by_cases hv : valid_log_level s = true
  · simp only [hv, if_true, Except.ok.injEq] at h
    exact ⟨hv, h.symm⟩
  · simp [hv] at h

theorem verbosity_entry_ok (env : host_env) (var key : String)
    (a : List (String × config_value)) (h : verbosity_entry env var key = .ok a) :
    (env.getenv var = none ∧ a = [])
      ∨ ∃ s, env.getenv var = some s ∧ valid_log_level s = true
          ∧ a = [(key, .string s)] := by
  unfold verbosity_entry at h
  cases hg : env.getenv var with
  | none =>
    rw [hg] at h
    simp only [Except.ok.injEq] at h
    exact Or.inl ⟨rfl, h.symm⟩
  | some s =>
    rw [hg] at h
    simp only [] at h
    cases hl : to_log_level var s with
    | error e => rw [hl] at h; simp at h
    | ok level =>
      rw [hl] at h
      simp only [Except.ok.injEq] at h
      obtain ⟨hv, hlevel⟩ := to_log_level_ok var s level hl
      subst hlevel
      exact Or.inr ⟨level, rfl, hv, h.symm⟩

theorem file_cap_entry_ok (env : host_env) (d : List (String × config_value))
    (h : file_cap_entry env = .ok d) :
    (env.getenv "BROKER_OUTPUT_GENERATOR_FILE_CAP" = none ∧ d = [])
      ∨ ∃ s n, env.getenv "BROKER_OUTPUT_GENERATOR_FILE_CAP" = some s
          ∧ configuration.output_generator_file_cap s env.errno = .ok n
          ∧ d = [("broker.output-generator-file-cap", .integer n)] := by
  unfold file_cap_entry at h
  cases hg : env.getenv "BROKER_OUTPUT_GENERATOR_FILE_CAP" with
  | none =>
    rw [hg] at h
    simp only [Except.ok.injEq] at h
    exact Or.inl ⟨rfl, h.symm⟩
  | some s =>
    rw [hg] at h
    simp only [] at h
    cases hl : configuration.output_generator_file_cap s env.errno with
    | error e => rw [hl] at h; simp at h
    | ok n =>
      rw [hl] at h
      simp only [Except.ok.injEq] at h
      exact Or.inr ⟨s, n, rfl, hl, h.symm⟩

theorem recording_directory_entry_cases (env : host_env) :
    (env.getenv "BROKER_RECORDING_DIRECTORY" = none ∧ recording_directory_entry env = [])
      ∨ ∃ s, env.getenv "BROKER_RECORDING_DIRECTORY" = some s
          ∧ recording_directory_entry env = [("broker.recording-directory", .string s)] := by
  unfold recording_directory_entry
  cases hg : env.getenv "BROKER_RECORDING_DIRECTORY" with
  | none => exact Or.inl ⟨rfl, rfl⟩
  | some s => exact Or.inr ⟨s, rfl, rfl⟩

theorem env_entries_ok (env : host_env) (es : List (String × config_value))
    (h : env_entries env = .ok es) :
    ∃ a b d,
      verbosity_entry env "BROKER_CONSOLE_VERBOSITY" console_verbosity_key = .ok a
        ∧ verbosity_entry env "BROKER_FILE_VERBOSITY" file_verbosity_key = .ok b
        ∧ file_cap_entry env = .ok d
        ∧ es = a ++ b ++ recording_directory_entry env ++ d := by
  unfold env_entries at h
  cases ha : verbosity_entry env "BROKER_CONSOLE_VERBOSITY" console_verbosity_key with
  | error e => rw [ha] at h; simp at h
  | ok a =>
    cases hb : verbosity_entry env "BROKER_FILE_VERBOSITY" file_verbosity_key with
    | error e => rw [ha, hb] at h; simp at h
    | ok b =>
      cases hd : file_cap_entry env with
      | error e => rw [ha, hb, hd] at h; simp at h
      | ok d =>
        rw [ha, hb, hd] at h
        simp only [Except.ok.injEq] at h
        exact ⟨a, b, d, rfl, rfl, rfl, h.symm⟩

theorem env_entries_last_assigned (env : host_env) (es : List (String × config_value))
    (h : env_entries env = .ok es) :
    (∀ s, env.getenv "BROKER_CONSOLE_VERBOSITY" = some s →
        valid_log_level s = true
          ∧ last_assigned es console_verbosity_key = some (.string s))
      ∧ (∀ s, env.getenv "BROKER_FILE_VERBOSITY" = some s →
        valid_log_level s = true
          ∧ last_assigned es file_verbosity_key = some (.string s))
      ∧ (∀ s, env.getenv "BROKER_RECORDING_DIRECTORY" = some s →
        last_assigned es "broker.recording-directory" = some (.string s))
      ∧ (∀ s, env.getenv "BROKER_OUTPUT_GENERATOR_FILE_CAP" = some s →
        ∃ n, configuration.output_generator_file_cap s env.errno = .ok n
          ∧ last_assigned es "broker.output-generator-file-cap" = some (.integer n)) := by
  obtain ⟨a, b, d, ha, hb, hd, hes⟩ := env_entries_ok env es h
  subst hes
  rcases verbosity_entry_ok _ _ _ _ ha with ⟨ga, rfl⟩ | ⟨sa, ga, va, rfl⟩ <;>
  rcases verbosity_entry_ok _ _ _ _ hb with ⟨gb, rfl⟩ | ⟨sb, gb, vb, rfl⟩ <;>
  rcases recording_directory_entry_cases env with ⟨gc, hc⟩ | ⟨sc, gc, hc⟩ <;>
  rcases file_cap_entry_ok _ _ hd with ⟨gd, rfl⟩ | ⟨sd, n, gd, hn, rfl⟩ <;>
  simp only [hc, ga, gb, gc, gd] <;>
  simp_all [last_assigned, console_verbosity_key, file_verbosity_key]


theorem configuration.init_phase3_eq (cfg : configuration) (env : host_env)
    (args : List String) :
    cfg.init_phase3 env args
      = if !args.isEmpty then
          match env.parse_cli args with
          | .error err =>
            .error (.runtime_error (concat ["Error while parsing CLI arguments: ", err]))
          | .ok entries => .ok (cfg.set_all entries)
        else .ok (cfg.set_all []) := by
  unfold configuration.init_phase3
  rfl

theorem configuration.init_eq (cfg : configuration) (env : host_env)
    (argv : Option (List String)) :
    cfg.init env argv
      = match cfg.init_load.init_phase1 env (configuration.init_args argv) with
        | .error e => .error e
        | .ok r =>
          match env_entries env with
          | .error e => .error e
          | .ok es => (r.1.set_all es).init_phase3 env r.2 := by
  unfold configuration.init
  simp only [bind, Except.bind, configuration.init_phase2_eq]
  cases cfg.init_load.init_phase1 env (configuration.init_args argv) with
  | error e => rfl
  | ok r =>
    simp only []
    cases env_entries env <;> rfl

/-- The final value of a key that phase 2 sets: the last command-line entry
for the key if there is one, and otherwise the value from the environment. -/
theorem configuration.init_get_if (cfg cfg' : configuration) (env : host_env)
    (argv : Option (List String)) (hinit : cfg.init env argv = .ok cfg') :
    ∃ es, env_entries env = .ok es
      ∧ ∀ (k : String) (v : config_value), last_assigned es k = some v →
          cfg'.content.get_if k
            = some ((last_assigned (cli_entries cfg env argv) k).getD v) := by
  obtain ⟨c1, args1, c2, h1, h2, h3⟩ := (configuration.init_ok_iff cfg cfg' env argv).1 hinit
  have hcli := configuration.init_phase3_ok cfg c1 c2 cfg' env argv args1 h1 h3
  rw [configuration.init_phase2_eq] at h2
  cases hes : env_entries env with
  | error e => rw [hes] at h2; simp at h2
  | ok es =>
    rw [hes] at h2
    simp only [Except.ok.injEq] at h2
    refine ⟨es, rfl, ?_⟩
    intro k v hk
    rw [hcli, configuration.get_if_set_all]
    cases hl : last_assigned (cli_entries cfg env argv) k with
    | some w => rfl
    | none =>
      simp only [Option.getD_none]
      rw [← h2, configuration.get_if_set_all, hk]

theorem env_entries_congr (env : host_env) (g : String → Option String)
    (hagree : ∀ k ∈ mirrored_vars, g k = env.getenv k) :
    env_entries { env with getenv := g } = env_entries env := by
  have h1 := hagree "BROKER_CONSOLE_VERBOSITY" (by simp [mirrored_vars])
  have h2 := hagree "BROKER_FILE_VERBOSITY" (by simp [mirrored_vars])
  have h3 := hagree "BROKER_RECORDING_DIRECTORY" (by simp [mirrored_vars])
  have h4 := hagree "BROKER_OUTPUT_GENERATOR_FILE_CAP" (by simp [mirrored_vars])
  unfold env_entries verbosity_entry file_cap_entry recording_directory_entry
  simp only [h1, h2, h3, h4]

theorem configuration.init_getenv (cfg : configuration) (env : host_env)
    (g : String → Option String) (argv : Option (List String)) :
    cfg.init { env with getenv := g } argv
      = match cfg.init_load.init_phase1 env (configuration.init_args argv) with
        | .error e => .error e
        | .ok r =>
          match env_entries { env with getenv := g } with
          | .error e => .error e
          | .ok es => (r.1.set_all es).init_phase3 env r.2 := by
  rw [configuration.init_eq]
  rfl

theorem configuration.init_phase3_transfer (c c' c0 : configuration) (env : host_env)
    (args : List String) (h : c.init_phase3 env args = .ok c0) :
    ∃ c1, c'.init_phase3 env args = .ok c1 := by
  rw [configuration.init_phase3_eq] at h ⊢
  by_cases hargs : (!args.isEmpty) = true
  · rw [if_pos hargs] at h ⊢
    cases hp : env.parse_cli args with
    | error e => rw [hp] at h; simp at h
    | ok es => exact ⟨_, rfl⟩
  · rw [if_neg hargs]
    exact ⟨_, rfl⟩

/-- With the other inputs fixed and `init` succeeding on one environment, on
another environment `init` throws what phase 2 throws there, and succeeds
when phase 2 does. -/
theorem configuration.init_transfer (cfg c0 : configuration) (env0 : host_env)
    (g : String → Option String) (argv : Option (List String))
    (h0 : cfg.init env0 argv = .ok c0) :
    (∀ e, env_entries { env0 with getenv := g } = .error e →
        cfg.init { env0 with getenv := g } argv = .error e)
      ∧ (∀ es, env_entries { env0 with getenv := g } = .ok es →
        ∃ c, cfg.init { env0 with getenv := g } argv = .ok c) := by
  rw [configuration.init_eq] at h0
  cases h1 : cfg.init_load.init_phase1 env0 (configuration.init_args argv) with
  | error e => rw [h1] at h0; simp at h0
  | ok r =>
    rw [h1] at h0
    simp only [] at h0
    cases h2 : env_entries env0 with
    | error e => rw [h2] at h0; simp at h0
    | ok es0 =>
      rw [h2] at h0
      simp only [] at h0
      constructor
      · intro e he
        rw [configuration.init_getenv, h1, he]
      · intro es hes
        rw [configuration.init_getenv, h1, hes]
        exact configuration.init_phase3_transfer _ _ _ env0 r.2 h0

theorem valid_log_level_iff (s : String) :
    valid_log_level s = true ↔ s ∈ legal_log_levels := by
  simp [valid_log_level, legal_log_levels, or_assoc]

theorem to_log_level_eq (var s : String) :
    to_log_level var s
      = if s ∈ legal_log_levels then .ok s else .error (throw_illegal_log_level var s) := by
  unfold to_log_level
  by_cases h : valid_log_level s = true
  · rw [if_pos h, if_pos ((valid_log_level_iff s).1 h)]
  · rw [if_neg h, if_neg (fun hm => h ((valid_log_level_iff s).2 hm))]

theorem env_entries_setenv_verbosity (env : host_env) (var s : String)
    (es0 : List (String × config_value))
    (hvar : var = "BROKER_CONSOLE_VERBOSITY" ∨ var = "BROKER_FILE_VERBOSITY")
    (h0 : env_entries (env.unsetenv var) = .ok es0) :
    (s ∈ legal_log_levels → ∃ es, env_entries (env.setenv var s) = .ok es)
      ∧ (s ∉ legal_log_levels →
          env_entries (env.setenv var s) = .error (throw_illegal_log_level var s)) := by
  obtain ⟨a, b, d, ha, hb, hd, -⟩ := env_entries_ok _ _ h0
  rcases hvar with rfl | rfl
  · have hb1 : verbosity_entry (env.setenv "BROKER_CONSOLE_VERBOSITY" s)
        "BROKER_FILE_VERBOSITY" file_verbosity_key = .ok b := by
      rw [← hb]; simp [verbosity_entry, host_env.setenv, host_env.unsetenv]
    have hd1 : file_cap_entry (env.setenv "BROKER_CONSOLE_VERBOSITY" s) = .ok d := by
      rw [← hd]; simp [file_cap_entry, host_env.setenv, host_env.unsetenv]
    have ha1 : verbosity_entry (env.setenv "BROKER_CONSOLE_VERBOSITY" s)
        "BROKER_CONSOLE_VERBOSITY" console_verbosity_key
        = if s ∈ legal_log_levels then .ok [(console_verbosity_key, .string s)]
          else .error (throw_illegal_log_level "BROKER_CONSOLE_VERBOSITY" s) := by
      simp only [verbosity_entry, host_env.setenv, if_true, to_log_level_eq]
      by_cases hs : s ∈ legal_log_levels <;> simp [hs]
    constructor
    · intro hs
      rw [if_pos hs] at ha1
      exact ⟨_, by unfold env_entries; rw [ha1, hb1, hd1]⟩
    · intro hs
      rw [if_neg hs] at ha1
      unfold env_entries
      rw [ha1]
  · have ha1 : verbosity_entry (env.setenv "BROKER_FILE_VERBOSITY" s)
        "BROKER_CONSOLE_VERBOSITY" console_verbosity_key = .ok a := by
      rw [← ha]; simp [verbosity_entry, host_env.setenv, host_env.unsetenv]
    have hd1 : file_cap_entry (env.setenv "BROKER_FILE_VERBOSITY" s) = .ok d := by
      rw [← hd]; simp [file_cap_entry, host_env.setenv, host_env.unsetenv]
    have hb1 : verbosity_entry (env.setenv "BROKER_FILE_VERBOSITY" s)
        "BROKER_FILE_VERBOSITY" file_verbosity_key
        = if s ∈ legal_log_levels then .ok [(file_verbosity_key, .string s)]
          else .error (throw_illegal_log_level "BROKER_FILE_VERBOSITY" s) := by
      simp only [verbosity_entry, host_env.setenv, if_true, to_log_level_eq]
      by_cases hs : s ∈ legal_log_levels <;> simp [hs]
    constructor
    · intro hs
      rw [if_pos hs] at hb1
      exact ⟨_, by unfold env_entries; rw [ha1, hb1, hd1]⟩
    · intro hs
      rw [if_neg hs] at hb1
      unfold env_entries
      rw [ha1, hb1]

/-! ## Lemmas on `strtol` and the file cap -/

theorem isdigit_ne (c d : Char) (h : isdigit c = true) (hd : isdigit d = false) : c ≠ d := by
  rintro rfl
  rw [h] at hd
  exact absurd hd (by decide)

theorem isdigit_not_space (c : Char) (h : isdigit c = true) : isspace c = false := by
  have h1 := isdigit_ne c ' ' h (by decide)
  have h2 := isdigit_ne c '\t' h (by decide)
  have h3 := isdigit_ne c '\n' h (by decide)
  have h4 := isdigit_ne c '\x0b' h (by decide)
  have h5 := isdigit_ne c '\x0c' h (by decide)
  have h6 := isdigit_ne c '\r' h (by decide)
  simp [isspace, h1, h2, h3, h4, h5, h6]

theorem dropWhile_append_stop (p : Char → Bool) (ws rest : List Char)
    (hws : ∀ c ∈ ws, p c = true) (hrest : ∀ c, rest.head? = some c → p c = false) :
    (ws ++ rest).dropWhile p = rest ∧ (ws ++ rest).takeWhile p = ws := by
  induction ws with
  | nil =>
    cases rest with
    | nil => simp
    | cons c r =>
      have := hrest c rfl
      simp [List.dropWhile, List.takeWhile, this]
  | cons w ws ih =>
    have hw := hws w (List.mem_cons_self _ _)
    have := ih (fun c hc => hws c (List.mem_cons_of_mem _ hc))
    simp [List.dropWhile, List.takeWhile, hw, this]

/-- What `strtol` returns on white space, an optional sign and a non-empty
string of digits. -/
theorem strtol_of_form (ws sign ds : List Char) (errno : Nat)
    (hws : ∀ c ∈ ws, isspace c = true)
    (hsign : sign = [] ∨ sign = ['+'] ∨ sign = ['-'])
    (hne : ds ≠ []) (hds : ∀ c ∈ ds, isdigit c = true) :
    strtol (ws ++ sign ++ ds) errno
      = if sign = ['-'] then
          (if (digits_value ds : Int) > -LONG_MIN then ⟨LONG_MIN, [], ERANGE⟩
           else ⟨-(digits_value ds : Int), [], errno⟩)
        else
          (if (digits_value ds : Int) > LONG_MAX then ⟨LONG_MAX, [], ERANGE⟩
           else ⟨(digits_value ds : Int), [], errno⟩) := by
  obtain ⟨c, ds', rfl⟩ := List.exists_cons_of_ne_nil hne
  have hc : isdigit c = true := hds c (List.mem_cons_self _ _)
  have hcm : c ≠ '-' := isdigit_ne c '-' hc (by decide)
  have hcp : c ≠ '+' := isdigit_ne c '+' hc (by decide)
  have htake : (c :: ds').takeWhile isdigit = c :: ds' := by
    have := (dropWhile_append_stop isdigit (c :: ds') [] hds (by simp)).2
    simpa using this
  have hdrop : (c :: ds').dropWhile isdigit = [] := by
    have := (dropWhile_append_stop isdigit (c :: ds') [] hds (by simp)).1
    simpa using this
  have hs1 : (ws ++ sign ++ c :: ds').dropWhile isspace = sign ++ c :: ds' := by
    rw [List.append_assoc]
    refine (dropWhile_append_stop isspace ws (sign ++ c :: ds') hws ?_).1
    intro x hx
    rcases hsign with rfl | rfl | rfl
    · simp only [List.nil_append, List.head?_cons, Option.some.injEq] at hx
      subst hx
      exact isdigit_not_space _ hc
    · simp only [List.singleton_append, List.head?_cons, Option.some.injEq] at hx
      subst hx
      decide
    · simp only [List.singleton_append, List.head?_cons, Option.some.injEq] at hx
      subst hx
      decide
  unfold strtol
  simp only [hs1]
  rcases hsign with rfl | rfl | rfl
  · simp [hcm, hcp, htake, hdrop]
  · simp [htake, hdrop]
  · simp [htake, hdrop]

/-- When `strtol` consumes a non-empty string to its end, the string is white
space, an optional sign and a non-empty string of digits. -/
theorem strtol_rest_nil (nptr : List Char) (errno : Nat) (hne : nptr ≠ [])
    (hrest : (strtol nptr errno).rest = []) :
    ∃ ws sign ds, nptr = ws ++ sign ++ ds ∧ (∀ c ∈ ws, isspace c = true)
      ∧ (sign = [] ∨ sign = ['+'] ∨ sign = ['-']) ∧ ds ≠ []
      ∧ (∀ c ∈ ds, isdigit c = true) := by
  have hval : (strtol nptr errno).rest
      = if ((if (nptr.dropWhile isspace).head? == some '-'
                || (nptr.dropWhile isspace).head? == some '+'
              then (nptr.dropWhile isspace).tail
              else nptr.dropWhile isspace).takeWhile isdigit).isEmpty
        then nptr
        else (if (nptr.dropWhile isspace).head? == some '-'
                || (nptr.dropWhile isspace).head? == some '+'
              then (nptr.dropWhile isspace).tail
              else nptr.dropWhile isspace).dropWhile isdigit := by
    unfold strtol
    simp only []
    split_ifs <;> rfl
  rw [hval] at hrest
  generalize hs1 : nptr.dropWhile isspace = s1 at hrest
  generalize hs2 : (if s1.head? == some '-' || s1.head? == some '+' then s1.tail else s1)
    = s2 at hrest
  have hn : nptr = nptr.takeWhile isspace ++ s1 := by
    rw [← hs1, List.takeWhile_append_dropWhile]
  have hws : ∀ c ∈ nptr.takeWhile isspace, isspace c = true :=
    fun c hc => List.mem_takeWhile_imp hc
  by_cases hemp : (s2.takeWhile isdigit).isEmpty = true
  · rw [if_pos hemp] at hrest
    exact absurd hrest hne
  · rw [if_neg hemp] at hrest
    have hs2ds : s2 = s2.takeWhile isdigit := by
      have h := List.takeWhile_append_dropWhile isdigit s2
      rw [hrest, List.append_nil] at h
      exact h.symm
    have hdig : ∀ c ∈ s2, isdigit c = true := by
      intro c hc
      rw [hs2ds] at hc
      exact List.mem_takeWhile_imp hc
    have hs2ne : s2 ≠ [] := by
      intro h
      apply hemp
      rw [h]
      rfl
    have hsplit : ∃ sign, s1 = sign ++ s2 ∧ (sign = [] ∨ sign = ['+'] ∨ sign = ['-']) := by
      cases s1 with
      | nil =>
        refine ⟨[], ?_, Or.inl rfl⟩
        simp at hs2
        simp [hs2]
      | cons c t =>
        by_cases hcm : c = '-'
        · subst hcm
          simp at hs2
          exact ⟨['-'], by simp [hs2], Or.inr (Or.inr rfl)⟩
        · by_cases hcp : c = '+'
          · subst hcp
            simp at hs2
            exact ⟨['+'], by simp [hs2], Or.inr (Or.inl rfl)⟩
          · simp [hcm, hcp] at hs2
            exact ⟨[], by simp [hs2], Or.inl rfl⟩
    obtain ⟨sign, hs1eq, hsign⟩ := hsplit
    refine ⟨nptr.takeWhile isspace, sign, s2, ?_, hws, hsign, hs2ne, hdig⟩
    rw [List.append_assoc, ← hs1eq]
    exact hn

theorem output_generator_file_cap_accepts (v : String) (errno : Nat)
    (ws sign ds : List Char) (hv : v.toList = ws ++ sign ++ ds)
    (hws : ∀ c ∈ ws, isspace c = true) (hsign : sign = [] ∨ sign = ['+'])
    (hne : ds ≠ []) (hds : ∀ c ∈ ds, isdigit c = true)
    (hmax : (digits_value ds : Int) ≤ LONG_MAX) (herrno : errno ≠ ERANGE) :
    configuration.output_generator_file_cap v errno = .ok (digits_value ds) := by
  have hform := strtol_of_form ws sign ds errno hws
    (hsign.elim Or.inl (fun h => Or.inr (Or.inl h))) hne hds
  have hnm : sign ≠ ['-'] := by
    rcases hsign with rfl | rfl <;> simp
  rw [if_neg hnm, if_neg (not_lt.mpr hmax)] at hform
  unfold configuration.output_generator_file_cap
  simp only [hv, hform]
  have h0 : ¬ ((digits_value ds : Int) < 0) := by omega
  simp [herrno, h0]

theorem output_generator_file_cap_rejects_large (v : String) (errno : Nat)
    (ws sign ds : List Char) (hv : v.toList = ws ++ sign ++ ds)
    (hws : ∀ c ∈ ws, isspace c = true) (hsign : sign = [] ∨ sign = ['+'])
    (hne : ds ≠ []) (hds : ∀ c ∈ ds, isdigit c = true)
    (hmax : (digits_value ds : Int) > LONG_MAX) :
    configuration.output_generator_file_cap v errno
      = .error (configuration.invalid_file_cap v) := by
  have hform := strtol_of_form ws sign ds errno hws
    (hsign.elim Or.inl (fun h => Or.inr (Or.inl h))) hne hds
  have hnm : sign ≠ ['-'] := by
    rcases hsign with rfl | rfl <;> simp
  rw [if_neg hnm, if_pos hmax] at hform
  unfold configuration.output_generator_file_cap
  simp only [hv, hform]
  simp

theorem output_generator_file_cap_rejects_negative (v : String) (errno : Nat)
    (ws ds : List Char) (hv : v.toList = ws ++ ['-'] ++ ds)
    (hws : ∀ c ∈ ws, isspace c = true)
    (hne : ds ≠ []) (hds : ∀ c ∈ ds, isdigit c = true)
    (hpos : 1 ≤ digits_value ds) :
    configuration.output_generator_file_cap v errno
      = .error (configuration.invalid_file_cap v) := by
  have hform := strtol_of_form ws ['-'] ds errno hws (Or.inr (Or.inr rfl)) hne hds
  rw [if_pos rfl] at hform
  unfold configuration.output_generator_file_cap
  simp only [hv, hform]
  by_cases hbig : (digits_value ds : Int) > -LONG_MIN
  · simp [hbig]
  · have hneg : -(digits_value ds : Int) < 0 := by omega
    simp [hbig, hneg]

theorem output_generator_file_cap_rejects_malformed (v : String) (errno : Nat)
    (hne : v ≠ "")
    (hform : ¬ ∃ ws sign ds, v.toList = ws ++ sign ++ ds ∧ (∀ c ∈ ws, isspace c = true)
      ∧ (sign = [] ∨ sign = ['+'] ∨ sign = ['-']) ∧ ds ≠ []
      ∧ (∀ c ∈ ds, isdigit c = true)) :
    configuration.output_generator_file_cap v errno
      = .error (configuration.invalid_file_cap v) := by
  have hl : v.toList ≠ [] := by
    intro h
    apply hne
    cases v with
    | mk data =>
      simp only [String.toList] at h
      subst h
      rfl
  have hrest : (strtol v.toList errno).rest ≠ [] :=
    fun h => hform (strtol_rest_nil v.toList errno hl h)
  unfold configuration.output_generator_file_cap
  simp only []
  rw [if_pos (Or.inr (Or.inl hrest))]

theorem env_entries_setenv_file_cap (env : host_env) (v : String)
    (es0 : List (String × config_value))
    (h0 : env_entries (env.unsetenv "BROKER_OUTPUT_GENERATOR_FILE_CAP") = .ok es0) :
    env_entries (env.setenv "BROKER_OUTPUT_GENERATOR_FILE_CAP" v)
      = match configuration.output_generator_file_cap v env.errno with
        | .ok n => .ok (es0 ++ [("broker.output-generator-file-cap", .integer n)])
        | .error e => .error e := by
  obtain ⟨a, b, d, ha, hb, hd, hes⟩ := env_entries_ok _ _ h0
  have ha1 : verbosity_entry (env.setenv "BROKER_OUTPUT_GENERATOR_FILE_CAP" v)
      "BROKER_CONSOLE_VERBOSITY" console_verbosity_key = .ok a := by
    rw [← ha]; simp [verbosity_entry, host_env.setenv, host_env.unsetenv]
  have hb1 : verbosity_entry (env.setenv "BROKER_OUTPUT_GENERATOR_FILE_CAP" v)
      "BROKER_FILE_VERBOSITY" file_verbosity_key = .ok b := by
    rw [← hb]; simp [verbosity_entry, host_env.setenv, host_env.unsetenv]
  have hr1 : recording_directory_entry (env.setenv "BROKER_OUTPUT_GENERATOR_FILE_CAP" v)
      = recording_directory_entry (env.unsetenv "BROKER_OUTPUT_GENERATOR_FILE_CAP") := by
    simp [recording_directory_entry, host_env.setenv, host_env.unsetenv]
  have hd0 : d = [] := by
    simp [file_cap_entry, host_env.unsetenv] at hd
    exact hd
  have hd1 : file_cap_entry (env.setenv "BROKER_OUTPUT_GENERATOR_FILE_CAP" v)
      = match configuration.output_generator_file_cap v env.errno with
        | .ok n => .ok [("broker.output-generator-file-cap", .integer n)]
        | .error e => .error e := by
    simp [file_cap_entry, host_env.setenv]
  unfold env_entries
  rw [ha1, hb1, hd1, hr1, hes, hd0]
  cases configuration.output_generator_file_cap v env.errno with
  | error e => rfl
  | ok n => simp

/-- C5: when `init` succeeds, each of console verbosity, file verbosity,
recording directory and output-generator file cap whose `BROKER_` variable is
set ends up with the (valid) value of the variable, whatever the
configuration file of phase 1 set, unless phase 3 (the command line) assigns
that key, in which case the last such assignment is the final value. -/
theorem env_overrides_file_and_cli_overrides_env (cfg cfg' : configuration)
    (env : host_env) (argv : Option (List String))
    (hinit : cfg.init env argv = .ok cfg') :
    (∀ s, env.getenv "BROKER_CONSOLE_VERBOSITY" = some s →
        valid_log_level s = true
          ∧ cfg'.content.get_if console_verbosity_key
            = some ((last_assigned (cli_entries cfg env argv) console_verbosity_key).getD
                (.string s)))
      ∧ (∀ s, env.getenv "BROKER_FILE_VERBOSITY" = some s →
        valid_log_level s = true
          ∧ cfg'.content.get_if file_verbosity_key
            = some ((last_assigned (cli_entries cfg env argv) file_verbosity_key).getD
                (.string s)))
      ∧ (∀ s, env.getenv "BROKER_RECORDING_DIRECTORY" = some s →
        cfg'.content.get_if "broker.recording-directory"
          = some ((last_assigned (cli_entries cfg env argv) "broker.recording-directory").getD
              (.string s)))
      ∧ (∀ s, env.getenv "BROKER_OUTPUT_GENERATOR_FILE_CAP" = some s →
        ∃ n, configuration.output_generator_file_cap s env.errno = .ok n
          ∧ cfg'.content.get_if "broker.output-generator-file-cap"
            = some ((last_assigned (cli_entries cfg env argv)
                "broker.output-generator-file-cap").getD (.integer n))) := by
  obtain ⟨es, hes, key⟩ := configuration.init_get_if cfg cfg' env argv hinit
  obtain ⟨e1, e2, e3, e4⟩ := env_entries_last_assigned env es hes
  refine ⟨fun s hs => ⟨(e1 s hs).1, key _ _ (e1 s hs).2⟩,
    fun s hs => ⟨(e2 s hs).1, key _ _ (e2 s hs).2⟩,
    fun s hs => key _ _ (e3 s hs), ?_⟩
  intro s hs
  obtain ⟨n, hn, hl⟩ := e4 s hs
  exact ⟨n, hn, key _ _ hl⟩

/-- Witness for C5: the file sets console verbosity `debug`, file verbosity
`warning`, directory `/tmp` and cap `7`; the environment sets `info`,
`error`, `/var/log/rec` and `250`; the command line sets the file verbosity
to `trace`. The result has `info`, `trace`, `/var/log/rec` and `250`. -/
theorem env_overrides_file_and_cli_overrides_env_witness :
    (configuration.skip_init 1).init precedence_env (some precedence_argv)
        = .ok precedence_result
      ∧ precedence_result.content.get_if console_verbosity_key = some (.string "info")
      ∧ precedence_result.content.get_if file_verbosity_key = some (.string "trace")
      ∧ precedence_result.content.get_if "broker.recording-directory"
          = some (.string "/var/log/rec")
      ∧ precedence_result.content.get_if "broker.output-generator-file-cap"
          = some (.integer 250) :=
  have h := env_overrides_file_and_cli_overrides_env (configuration.skip_init 1)
    precedence_result precedence_env (some precedence_argv) rfl
  ⟨rfl, (h.1 "info" rfl).2.trans rfl, (h.2.1 "error" rfl).2.trans rfl,
    (h.2.2.1 "/var/log/rec" rfl).trans rfl, by decide⟩

/-- C6 (as the code has it): `init` reads four environment variables only
(console verbosity, file verbosity, recording directory, output-generator
file cap): changing any other variable changes nothing. When `init` succeeds,
each of these four keys whose variable is set holds the value of the variable
unless the command line assigns the key. -/
theorem init_reads_four_variables_only (cfg cfg' : configuration) (env : host_env)
    (g : String → Option String) (argv : Option (List String))
    (hagree : ∀ k ∈ mirrored_vars, g k = env.getenv k)
    (hinit : cfg.init env argv = .ok cfg') :
    cfg.init { env with getenv := g } argv = .ok cfg'
      ∧ (∀ s, env.getenv "BROKER_CONSOLE_VERBOSITY" = some s →
          last_assigned (cli_entries cfg env argv) console_verbosity_key = none →
          cfg'.content.get_if console_verbosity_key = some (.string s))
      ∧ (∀ s, env.getenv "BROKER_FILE_VERBOSITY" = some s →
          last_assigned (cli_entries cfg env argv) file_verbosity_key = none →
          cfg'.content.get_if file_verbosity_key = some (.string s))
      ∧ (∀ s, env.getenv "BROKER_RECORDING_DIRECTORY" = some s →
          last_assigned (cli_entries cfg env argv) "broker.recording-directory" = none →
          cfg'.content.get_if "broker.recording-directory" = some (.string s))
      ∧ (∀ s, env.getenv "BROKER_OUTPUT_GENERATOR_FILE_CAP" = some s →
          last_assigned (cli_entries cfg env argv) "broker.output-generator-file-cap" = none →
          ∃ n, configuration.output_generator_file_cap s env.errno = .ok n
            ∧ cfg'.content.get_if "broker.output-generator-file-cap"
                = some (.integer n)) := by
  obtain ⟨es, hes, key⟩ := configuration.init_get_if cfg cfg' env argv hinit
  obtain ⟨e1, e2, e3, e4⟩ := env_entries_last_assigned env es hes
  refine ⟨?_, ?_, ?_, ?_, ?_⟩
  · rw [configuration.init_getenv, env_entries_congr env g hagree, ← configuration.init_eq]
    exact hinit
  · intro s hs hcli
    rw [key _ _ (e1 s hs).2, hcli]
    rfl
  · intro s hs hcli
    rw [key _ _ (e2 s hs).2, hcli]
    rfl
  · intro s hs hcli
    rw [key _ _ (e3 s hs), hcli]
    rfl
  · intro s hs hcli
    obtain ⟨n, hn, hl⟩ := e4 s hs
    refine ⟨n, hn, ?_⟩
    rw [key _ _ hl, hcli]
    rfl

/-- Counterexample to C6 as stated: with `BROKER_DISABLE_SSL=true`,
`BROKER_DISABLE_FORWARDING=true`, `BROKER_TICK_INTERVAL=50ms` (and the three
other store variables) in the environment, `init` succeeds and the
configuration still has `disable_ssl = false`, `broker.disable-ssl = false`,
`broker.disable-forwarding = false` and no tick interval. -/
theorem init_ignores_disable_ssl_variable :
    mirror_env.getenv "BROKER_DISABLE_SSL" = some "true"
      ∧ mirror_env.getenv "BROKER_DISABLE_FORWARDING" = some "true"
      ∧ mirror_env.getenv "BROKER_TICK_INTERVAL" = some "50ms"
      ∧ ((configuration.skip_init 1).init mirror_env none).map
          (fun c => (c.options_.disable_ssl, c.options_.disable_forwarding,
            c.content.get_if "broker.disable-ssl",
            c.content.get_if "broker.disable-forwarding",
            c.content.get_if "broker.store.tick-interval",
            c.content.get_if "broker.store.heartbeat-interval",
            c.content.get_if "broker.store.nack-timeout",
            c.content.get_if "broker.store.connection-timeout"))
        = .ok (false, false, some (.boolean false), some (.boolean false),
            none, none, none, none) := by
  refine ⟨rfl, rfl, rfl, rfl⟩

/-- Witness for C6: on the concrete run the variable `BROKER_DISABLE_SSL`
is added to the environment, which changes nothing, and the console
verbosity, which the command line does not assign, is the `info` of the
environment. -/
theorem init_reads_four_variables_only_witness :
    configuration.init (configuration.skip_init 1)
        { precedence_env with
          getenv := fun k =>
            if k = "BROKER_DISABLE_SSL" then some "true" else precedence_env.getenv k }
        (some precedence_argv)
        = .ok precedence_result
      ∧ precedence_result.content.get_if console_verbosity_key = some (.string "info") :=
  have h := init_reads_four_variables_only (configuration.skip_init 1) precedence_result
    precedence_env
    (fun k => if k = "BROKER_DISABLE_SSL" then some "true" else precedence_env.getenv k)
    (some precedence_argv) (by decide) rfl
  ⟨h.1, h.2.1 "info" rfl rfl⟩

/-- The exception built by `throw_illegal_log_level` is a
`std::invalid_argument` whose message names the variable and the value. -/
theorem throw_illegal_log_level_eq (var s : String) :
    throw_illegal_log_level var s
      = .invalid_argument
          ("illegal value for environment variable " ++ var ++ ": '" ++ s
            ++ "' (legal values: 'trace', 'debug', 'info', 'warning', 'error')") := by
  simp [throw_illegal_log_level, concat]

/-- C7: `to_log_level` (string variant) returns its argument unchanged
exactly when it is one of `trace`, `debug`, `info`, `warning`, `error`,
`quiet` and throws `std::invalid_argument` otherwise (with the message
`illegal value for environment variable <var>: '<s>' (legal values: ...)`);
so, on inputs on which `init` succeeds with the verbosity variable unset,
`init` with the variable set to `s` fails exactly when `s` is not one of the
six, and then with that `std::invalid_argument`. -/
theorem legal_verbosity_levels (var s : String) :
    (to_log_level var s = .ok s ↔ s ∈ legal_log_levels)
      ∧ (s ∉ legal_log_levels →
          to_log_level var s
            = .error (.invalid_argument
                ("illegal value for environment variable " ++ var ++ ": '" ++ s
                  ++ "' (legal values: 'trace', 'debug', 'info', 'warning', 'error')")))
      ∧ ∀ (cfg c0 : configuration) (env : host_env) (argv : Option (List String)),
          (var = "BROKER_CONSOLE_VERBOSITY" ∨ var = "BROKER_FILE_VERBOSITY") →
          cfg.init (env.unsetenv var) argv = .ok c0 →
          ((∃ e, cfg.init (env.setenv var s) argv = .error e) ↔ s ∉ legal_log_levels)
            ∧ (s ∉ legal_log_levels →
                cfg.init (env.setenv var s) argv
                  = .error (.invalid_argument
                      ("illegal value for environment variable " ++ var ++ ": '" ++ s
                        ++ "' (legal values: 'trace', 'debug', 'info', 'warning', 'error')"))) := by
  rw [← throw_illegal_log_level_eq]
  refine ⟨?_, ?_, ?_⟩
  · rw [to_log_level_eq]
    by_cases hs : s ∈ legal_log_levels
    · simp [hs]
    · simp [hs]
  · intro hs
    rw [to_log_level_eq, if_neg hs]
  · intro cfg c0 env argv hvar hother
    obtain ⟨es0, hes0, -⟩ := configuration.init_get_if cfg c0 _ argv hother
    obtain ⟨hok, herr⟩ := env_entries_setenv_verbosity env var s es0 hvar hes0
    obtain ⟨terr, tok⟩ := configuration.init_transfer cfg c0 (env.unsetenv var)
      (env.setenv var s).getenv argv hother
    have hfail : s ∉ legal_log_levels →
        cfg.init (env.setenv var s) argv = .error (throw_illegal_log_level var s) :=
      fun hs => terr _ (herr hs)
    refine ⟨⟨?_, fun hs => ⟨_, hfail hs⟩⟩, hfail⟩
    rintro ⟨e, he⟩ hs
    obtain ⟨es, hes⟩ := hok hs
    obtain ⟨c, hc⟩ := tok es hes
    have hc' : cfg.init (env.setenv var s) argv = .ok c := hc
    rw [hc'] at he
    simp at he

/-- Witness for C7: the concrete run succeeds without the console verbosity
variable; with the variable set to `verbose` it throws
`std::invalid_argument`, and `to_log_level` returns `quiet` for `quiet` and
throws `std::invalid_argument` for `verbose`. -/
theorem legal_verbosity_levels_witness :
    configuration.init (configuration.skip_init 1)
        (precedence_env.setenv "BROKER_CONSOLE_VERBOSITY" "verbose")
        (some precedence_argv)
        = .error (.invalid_argument
            "illegal value for environment variable BROKER_CONSOLE_VERBOSITY: 'verbose' (legal values: 'trace', 'debug', 'info', 'warning', 'error')")
      ∧ to_log_level "BROKER_FILE_VERBOSITY" "quiet" = .ok "quiet"
      ∧ to_log_level "BROKER_FILE_VERBOSITY" "verbose"
          = .error (.invalid_argument
              "illegal value for environment variable BROKER_FILE_VERBOSITY: 'verbose' (legal values: 'trace', 'debug', 'info', 'warning', 'error')") :=
  ⟨(((legal_verbosity_levels "BROKER_CONSOLE_VERBOSITY" "verbose").2.2
      (configuration.skip_init 1)
      (((configuration.skip_init 1).init
          (precedence_env.unsetenv "BROKER_CONSOLE_VERBOSITY")
          (some precedence_argv)).toOption.getD {})
      precedence_env (some precedence_argv) (Or.inl rfl) rfl).2 (by decide)).trans rfl,
   (legal_verbosity_levels "BROKER_FILE_VERBOSITY" "quiet").1.2 (by decide),
   ((legal_verbosity_levels "BROKER_FILE_VERBOSITY" "verbose").2.1 (by decide)).trans rfl⟩

/-- C8 (as the code has it): on inputs on which `init` succeeds with
`BROKER_OUTPUT_GENERATOR_FILE_CAP` unset, `init` with the variable set to `v`
(1) succeeds and stores `n` under `broker.output-generator-file-cap` (unless
the command line assigns that key) when `v` is optional white space, an
optional `+` and a non-empty string of digits denoting `n` with
`1 ≤ n ≤ LONG_MAX`, and `errno` is not `ERANGE` beforehand; and throws
`std::invalid_argument` ("expected a positive integer") when (2) the digits
denote a number above `LONG_MAX`, (3) `v` is a negative number, or (4) `v` is
non-empty and not white space, an optional sign and digits through to its
end. -/
theorem file_cap_validation (cfg c0 : configuration) (env : host_env)
    (argv : Option (List String)) (v : String)
    (hother : cfg.init (env.unsetenv "BROKER_OUTPUT_GENERATOR_FILE_CAP") argv = .ok c0) :
    (∀ ws sign ds, v.toList = ws ++ sign ++ ds → (∀ c ∈ ws, isspace c = true) →
        (sign = [] ∨ sign = ['+']) → ds ≠ [] → (∀ c ∈ ds, isdigit c = true) →
        1 ≤ digits_value ds → (digits_value ds : Int) ≤ LONG_MAX → env.errno ≠ ERANGE →
        ∃ c, cfg.init (env.setenv "BROKER_OUTPUT_GENERATOR_FILE_CAP" v) argv = .ok c
          ∧ c.content.get_if "broker.output-generator-file-cap"
              = some ((last_assigned (cli_entries cfg env argv)
                  "broker.output-generator-file-cap").getD
                    (.integer (digits_value ds))))
      ∧ (∀ ws sign ds, v.toList = ws ++ sign ++ ds → (∀ c ∈ ws, isspace c = true) →
        (sign = [] ∨ sign = ['+']) → ds ≠ [] → (∀ c ∈ ds, isdigit c = true) →
        (digits_value ds : Int) > LONG_MAX →
        cfg.init (env.setenv "BROKER_OUTPUT_GENERATOR_FILE_CAP" v) argv
          = .error (configuration.invalid_file_cap v))
      ∧ (∀ ws ds, v.toList = ws ++ ['-'] ++ ds → (∀ c ∈ ws, isspace c = true) →
        ds ≠ [] → (∀ c ∈ ds, isdigit c = true) → 1 ≤ digits_value ds →
        cfg.init (env.setenv "BROKER_OUTPUT_GENERATOR_FILE_CAP" v) argv
          = .error (configuration.invalid_file_cap v))
      ∧ (v ≠ "" →
        (¬ ∃ ws sign ds, v.toList = ws ++ sign ++ ds ∧ (∀ c ∈ ws, isspace c = true)
          ∧ (sign = [] ∨ sign = ['+'] ∨ sign = ['-']) ∧ ds ≠ []
          ∧ (∀ c ∈ ds, isdigit c = true)) →
        cfg.init (env.setenv "BROKER_OUTPUT_GENERATOR_FILE_CAP" v) argv
          = .error (configuration.invalid_file_cap v)) := by
  obtain ⟨es0, hes0, -⟩ := configuration.init_get_if cfg c0 _ argv hother
  have hent := env_entries_setenv_file_cap env v es0 hes0
  obtain ⟨terr, tok⟩ := configuration.init_transfer cfg c0
    (env.unsetenv "BROKER_OUTPUT_GENERATOR_FILE_CAP")
    (env.setenv "BROKER_OUTPUT_GENERATOR_FILE_CAP" v).getenv argv hother
  have hreject : configuration.output_generator_file_cap v env.errno
        = .error (configuration.invalid_file_cap v) →
      cfg.init (env.setenv "BROKER_OUTPUT_GENERATOR_FILE_CAP" v) argv
        = .error (configuration.invalid_file_cap v) := by
    intro h
    rw [h] at hent
    exact terr _ hent
  refine ⟨?_, ?_, ?_, ?_⟩
  · intro ws sign ds hv hws hsign hne hds _ hmax herrno
    have hacc := output_generator_file_cap_accepts v env.errno ws sign ds hv hws hsign
      hne hds hmax herrno
    rw [hacc] at hent
    obtain ⟨c, hc⟩ := tok _ hent
    have hc' : cfg.init (env.setenv "BROKER_OUTPUT_GENERATOR_FILE_CAP" v) argv = .ok c := hc
    refine ⟨c, hc', ?_⟩
    obtain ⟨es, hes, key⟩ := configuration.init_get_if cfg c _ argv hc'
    obtain ⟨-, -, -, e4⟩ := env_entries_last_assigned _ es hes
    obtain ⟨n, hn, hl⟩ := e4 v (by simp [host_env.setenv])
    have hn' : configuration.output_generator_file_cap v env.errno = .ok n := hn
    rw [hacc] at hn'
    simp only [Except.ok.injEq] at hn'
    subst hn'
    exact key _ _ hl
  · intro ws sign ds hv hws hsign hne hds hmax
    exact hreject (output_generator_file_cap_rejects_large v env.errno ws sign ds hv hws
      hsign hne hds hmax)
  · intro ws ds hv hws hne hds hpos
    exact hreject (output_generator_file_cap_rejects_negative v env.errno ws ds hv hws
      hne hds hpos)
  · intro hne hform
    exact hreject (output_generator_file_cap_rejects_malformed v env.errno hne hform)

/-- Counterexample to C8 as stated: `9223372036854775808` is the decimal
representation of the positive integer `2 ^ 63`, and `init` throws instead of
storing it; ` +7` (a blank, a plus sign, a digit) is not the decimal
representation of an integer, and `init` stores `7` instead of throwing. -/
theorem init_file_cap_follows_strtol :
    (2 : Nat) ^ 63 = 9223372036854775808
      ∧ (configuration.skip_init 1).init (cap_env "9223372036854775808") none
        = .error (.invalid_argument
            "invalid value for BROKER_OUTPUT_GENERATOR_FILE_CAP: 9223372036854775808 (expected a positive integer)")
      ∧ ((configuration.skip_init 1).init (cap_env " +7") none).map
          (fun c => c.content.get_if "broker.output-generator-file-cap")
        = .ok (some (.integer 7)) := by
  refine ⟨by norm_num, rfl, rfl⟩

/-- Witness for C8: with nothing else in the way, the value ` +250` is stored
as `250`. -/
theorem file_cap_validation_witness :
    ∃ c, (configuration.skip_init 1).init
        ((cap_env "").setenv "BROKER_OUTPUT_GENERATOR_FILE_CAP" " +250") none = .ok c
      ∧ c.content.get_if "broker.output-generator-file-cap" = some (.integer 250) :=
  (file_cap_validation (configuration.skip_init 1)
    (((configuration.skip_init 1).init
        ((cap_env "").unsetenv "BROKER_OUTPUT_GENERATOR_FILE_CAP") none).toOption.getD {})
    (cap_env "") none " +250" rfl).1 [' '] ['+'] ['2', '5', '0'] rfl (by decide)
    (Or.inr rfl) (by decide) (by decide) (by decide) (by decide) (by decide)

/-- C9 (as the code has it): constructing a topic from a string never fails;
the topic holds the string unchanged, whether it is a well-formed user topic
or not. -/
theorem topic_constructor_accepts_any_string (x : String) :
    (topic.from_string x).string = x
      ∧ (topic.from_string x).str_ = x :=
  ⟨rfl, rfl⟩

/-- Counterexample to C9 as stated: the strings `a//b`, `/a`, `a/` and
`<$>/x` are not well-formed user topics, and the constructor yields topics
whose `string()` is the malformed input. -/
theorem malformed_topics_are_constructed :
    well_formed_user_topic "a//b" = false
      ∧ (topic.from_string "a//b").string = "a//b"
      ∧ well_formed_user_topic "/a" = false
      ∧ (topic.from_string "/a").string = "/a"
      ∧ well_formed_user_topic "a/" = false
      ∧ (topic.from_string "a/").string = "a/"
      ∧ well_formed_user_topic "<$>/x" = false
      ∧ (topic.from_string "<$>/x").string = "<$>/x"
      ∧ well_formed_user_topic "a/b" = true := by
  refine ⟨by decide, rfl, by decide, rfl, by decide, rfl, by decide, rfl, by decide⟩

/-- C10 (as the code has it): `publish` returns nothing, whatever the queue
does; it hands the publisher's topic and the item to `produce` once, leaves
the queue as `produce` left it, and sends the worker exactly one `resume`
when `produce` returned `true` and nothing when it returned `false`. -/
theorem publish_returns_nothing_and_resumes_on_true
    (produce : shared_publisher_queue → topic → data → Bool × shared_publisher_queue)
    (p : publisher) (x : data) :
    (publisher.publish produce p x).1 = ()
      ∧ (publisher.publish produce p x).2.queue_ = (produce p.queue_ p.topic_ x).2
      ∧ (publisher.publish produce p x).2.topic_ = p.topic_
      ∧ (publisher.publish produce p x).2.mailbox
          = if (produce p.queue_ p.topic_ x).1 then p.mailbox ++ [worker_msg.resume]
            else p.mailbox := by
  unfold publisher.publish
  cases h : (produce p.queue_ p.topic_ x).1 <;> simp [h]

/-- Counterexample to C10 as stated: with a queue that refuses an item when
it holds `queue_size` items, `publish` on a full queue (item refused, no
`resume`) and on an empty queue (item accepted, one `resume`) return the same
value, so the return value does not tell the caller which happened. -/
theorem publish_return_value_hides_full_queue :
    full_publisher.queue_.xs.length = 30
      ∧ (full_publisher.queue_.produce full_publisher.topic_ "y").1 = false
      ∧ (idle_publisher.queue_.produce idle_publisher.topic_ "y").1 = true
      ∧ (publisher.publish shared_publisher_queue.produce full_publisher "y").1
          = (publisher.publish shared_publisher_queue.produce idle_publisher "y").1
      ∧ (publisher.publish shared_publisher_queue.produce full_publisher "y").2.mailbox = []
      ∧ (publisher.publish shared_publisher_queue.produce idle_publisher "y").2.mailbox
          = [worker_msg.resume] := by
  refine ⟨by decide, by decide, by decide, rfl, by decide, by decide⟩

/-! ## More on the item stash: `replenish` and the assertion of `reclaim` -/

/-- C15: `replenish(n)` is all-or-nothing. When the allocator succeeds, the
call returns normally, the free list is the old free list followed by the `n`
slots the allocator wrote, and `max_stash_size_` has grown by `n`; when the
allocator throws, the call throws the same exception and the free list and
`max_stash_size_` are what they were. -/
theorem replenish_all_or_nothing (s : item_stash) (n : Nat) :
    (∀ f : Nat → item_ptr,
        (s.replenish n (.ok f)).1 = .ok ()
          ∧ (s.replenish n (.ok f)).2.stash_.elems
              = s.stash_.elems ++ (List.range n).map f
          ∧ ((s.replenish n (.ok f)).2.stash_.elems.drop s.stash_.elems.length).length = n
          ∧ (s.replenish n (.ok f)).2.max_stash_size_ = s.max_stash_size_ + n)
      ∧ (∀ e : cpp_exception,
        (s.replenish n (.error e)).1 = .error e
          ∧ (s.replenish n (.error e)).2.stash_.elems = s.stash_.elems
          ∧ (s.replenish n (.error e)).2.max_stash_size_ = s.max_stash_size_) := by
  constructor
  · intro f
    obtain ⟨h1, h2⟩ := item_stash.replenish_ok_elems s n f
    refine ⟨rfl, h1, ?_, h2⟩
    rw [h1]
    simp
  · intro e
    obtain ⟨h1, h2⟩ := item_stash.replenish_error_elems s n e
    exact ⟨rfl, h1, h2⟩

theorem item_stash.make_capacity (alloc : alloc_outcome) (n : Nat) (s : item_stash)
    (h : item_stash.make alloc n = .ok s) :
    s.max_stash_size_ ≤ s.stash_.capacity := by
  unfold item_stash.make at h
  by_cases hpos : n > 0
  · rw [if_pos hpos] at h
    cases alloc with
    | error e => simp at h
    | ok f =>
      simp only [Except.ok.injEq] at h
      subst h
      have hn : ¬ n ≤ 0 := by omega
      simp [ptr_vector.fill_span, ptr_vector.resize, ptr_vector.insert_end,
        ptr_vector.size, hn, hpos]
  · rw [if_neg hpos] at h
    simp only [Except.ok.injEq] at h
    subst h
    simp

theorem item_stash.replenish_capacity (s : item_stash) (n : Nat) (alloc : alloc_outcome) :
    (s.replenish n alloc).2.max_stash_size_ ≤ (s.replenish n alloc).2.stash_.capacity := by
  have hres : s.max_stash_size_ + n ≤ (s.stash_.reserve (s.max_stash_size_ + n)).capacity := by
    unfold ptr_vector.reserve
    split
    · exact Nat.le_refl _
    · omega
  have hins : ∀ v : ptr_vector, v.capacity ≤ (v.insert_end n nullptr).capacity := by
    intro v
    simp only [ptr_vector.insert_end]
    split <;> omega
  have h2 := hins (s.stash_.reserve (s.max_stash_size_ + n))
  cases alloc with
  | error e =>
    simp only [item_stash.replenish, ptr_vector.erase_from]
    omega
  | ok f =>
    simp only [item_stash.replenish, ptr_vector.fill_span]
    omega

theorem pool.step_capacity (q q1 : pool) (op : pool_op)
    (hstep : q.step op = some q1)
    (h : q.stash.max_stash_size_ ≤ q.stash.stash_.capacity) :
    q1.stash.max_stash_size_ ≤ q1.stash.stash_.capacity := by
  cases op with
  | replenish n alloc =>
    simp only [pool.step, Option.some.injEq] at hstep
    subst hstep
    exact item_stash.replenish_capacity q.stash n alloc
  | next =>
    simp only [pool.step] at hstep
    rcases item_stash.next_cases q.stash with ⟨_, hn⟩ | ⟨front, p, he, hn⟩
    · rw [hn] at hstep
      simp only [Option.some.injEq] at hstep
      subst hstep
      exact h
    · rw [hn] at hstep
      simp only [Option.some.injEq] at hstep
      subst hstep
      exact h
  | reclaim p =>
    simp only [pool.step] at hstep
    by_cases hp : p ∈ q.live
    · rw [if_pos hp] at hstep
      simp only [Option.some.injEq] at hstep
      subst hstep
      simp only [item_stash.reclaim, ptr_vector.push_back]
      split <;> omega
    · rw [if_neg hp] at hstep
      exact absurd hstep (by simp)

theorem pool.run_capacity (ops : List pool_op) (q q1 : pool)
    (hrun : q.run ops = some q1)
    (h : q.stash.max_stash_size_ ≤ q.stash.stash_.capacity) :
    q1.stash.max_stash_size_ ≤ q1.stash.stash_.capacity := by
  induction ops generalizing q with
  | nil =>
    simp only [pool.run, Option.some.injEq] at hrun
    subst hrun
    exact h
  | cons op ops ih =>
    simp only [pool.run] at hrun
    cases hs : q.step op with
    | none => rw [hs] at hrun; exact absurd hrun (by simp)
    | some q2 =>
      rw [hs] at hrun
      exact ih q2 hrun (pool.step_capacity q q2 op hs h)

/-- C16: the assertion of `reclaim` holds. In every state reached from
`make(allocator, n)` by `replenish`, `next` and `reclaim` of handed-out slots,
the capacity of the free list is at least `max_stash_size_`; when a slot is
handed out the free list holds fewer than `max_stash_size_` slots, so
`stash_.capacity() > stash_.size()` on entry of `reclaim`, and the
`push_back` leaves the capacity as it is. -/
theorem reclaim_assertion_holds (alloc : alloc_outcome) (n : Nat) (s0 : item_stash)
    (ops : List pool_op) (q : pool) (p : item_ptr)
    (hmake : item_stash.make alloc n = .ok s0)
    (hrun : pool.run { stash := s0 } ops = some q)
    (hp : p ∈ q.live) :
    q.stash.stash_.capacity > q.stash.stash_.size
      ∧ q.stash.max_stash_size_ ≤ q.stash.stash_.capacity
      ∧ q.stash.stash_.size < q.stash.max_stash_size_
      ∧ (q.stash.reclaim p).stash_.capacity = q.stash.stash_.capacity := by
  obtain ⟨ha, hm⟩ := item_stash.make_available alloc n s0 hmake
  have hcons := pool.run_conserved ops { stash := s0 } q hrun
    (by simp only [List.length_nil]; omega) (by simp)
  have hcap := pool.run_capacity ops { stash := s0 } q hrun
    (item_stash.make_capacity alloc n s0 hmake)
  have hpos : 0 < q.live.length := List.length_pos_of_mem hp
  have hlt : q.stash.stash_.size < q.stash.max_stash_size_ := by
    have := hcons.1
    simp only [item_stash.available] at this
    omega
  refine ⟨by omega, hcap, hlt, ?_⟩
  simp only [item_stash.reclaim, ptr_vector.push_back]
  rw [if_neg (by omega)]

/-- Witness for C16: on the run of the witness for C3 the slot `4160` is
handed out; the free list holds 3 slots in a capacity of 6. -/
theorem reclaim_assertion_holds_witness :
    (6 : Nat) > 3 ∧ (5 : Nat) ≤ 6 ∧ (3 : Nat) < 5
      ∧ (item_stash.reclaim
          { stash_ := { elems := [4096, 8192, 8256], capacity := 6 }, max_stash_size_ := 5 }
          4160).stash_
        = { elems := [4096, 8192, 8256, 4160], capacity := 6 } :=
  have h := reclaim_assertion_holds (.ok (fun j => 4096 + 64 * j)) 2
    { stash_ := { elems := [4096, 4160], capacity := 2 }, max_stash_size_ := 2 }
    [.next, .replenish 3 (.ok (fun j => 8192 + 64 * j)), .next, .reclaim 4160,
      .replenish 1 (.error .bad_alloc), .next]
    { stash := { stash_ := { elems := [4096, 8192, 8256], capacity := 6 },
                 max_stash_size_ := 5 },
      live := [4160, 8320], acquired := 3, reclaimed := 1 }
    4160 rfl rfl (by decide)
  ⟨h.1, h.2.1, h.2.2.1, by decide⟩

/-! ## The split of the command-line arguments in `init` -/

theorem configuration.predicate_eq (s : String) :
    configuration.predicate s = !is_config_file_arg s := by
  unfold configuration.predicate is_config_file_arg
  have hlen : "--config-file=".toList.length = 14 := by decide
  generalize "--config-file=".toList = p at hlen
  generalize s.toList = l
  have key : p.isPrefixOf l = (l.take 14 == p) := by
    rw [Bool.eq_iff_iff, List.isPrefixOf_iff_prefix, beq_iff_eq,
      List.prefix_iff_eq_take, hlen]
    exact eq_comm
  rw [key]
  rfl

theorem configuration.stable_partition_eq (args : List String) :
    configuration.stable_partition args
      = (args.filter (fun s => !is_config_file_arg s) ++ args.filter is_config_file_arg,
         (args.filter (fun s => !is_config_file_arg s)).length) := by
  have hp : configuration.predicate = fun s => !is_config_file_arg s :=
    funext configuration.predicate_eq
  unfold configuration.stable_partition
  rw [hp]
  simp only [Bool.not_not]

theorem configuration.init_args_some (av : List String) :
    configuration.init_args (some av) = av.drop 1 := by
  unfold configuration.init_args
  simp only []
  split
  · rfl
  · cases av with
    | nil => rfl
    | cons a rest =>
      cases rest with
      | nil => rfl
      | cons b r => simp at *

theorem configuration.init_phase1_split (cfg : configuration) (env : host_env)
    (args : List String) (hconf : cfg.options_.ignore_broker_conf = false) :
    cfg.init_phase1 env args
      = match env.parse_conf (args.filter is_config_file_arg) with
        | .error err =>
          .error (.runtime_error (concat ["Error while reading ", conf_file, ": ", err]))
        | .ok entries =>
          .ok (cfg.set_all entries, args.filter (fun s => !is_config_file_arg s)) := by
  unfold configuration.init_phase1
  simp only [hconf, Bool.not_false, if_true, configuration.stable_partition_eq]
  by_cases hsep : (List.filter (fun s => !is_config_file_arg s) args).length
      ≠ (List.filter (fun s => !is_config_file_arg s) args
          ++ List.filter is_config_file_arg args).length
  · rw [if_pos hsep, if_pos hsep, List.drop_left, List.take_left]
  · have hnil : List.filter is_config_file_arg args = [] := by
      simp only [List.length_append, ne_eq, not_not] at hsep
      exact List.length_eq_zero.1 (by omega)
    rw [if_neg hsep, if_neg hsep, hnil, List.append_nil]

/-- C17: with `ignore_broker_conf` false, `init` drops `argv[0]` (the list
`av` holds the `argc` words of `argv`), gives the configuration-file parser of phase 1 exactly the
arguments of `argv[1..]` that begin with `--config-file=`, in their order,
and gives the command-line parser of phase 3 exactly the other arguments, in
their order; phase 3 is skipped when there is none. -/
theorem init_splits_arguments (cfg : configuration) (env : host_env) (av : List String)
    (hconf : cfg.options_.ignore_broker_conf = false) :
    cfg.init env (some av)
        = (match env.parse_conf ((av.drop 1).filter is_config_file_arg) with
          | .error err =>
            .error (.runtime_error (concat ["Error while reading ", conf_file, ": ", err]))
          | .ok entries =>
            init_after_phase1 cfg.init_load env entries
              ((av.drop 1).filter (fun s => !is_config_file_arg s)))
      ∧ cfg.init_load.init_phase1 env (configuration.init_args (some av))
        = (match env.parse_conf ((av.drop 1).filter is_config_file_arg) with
          | .error err =>
            .error (.runtime_error (concat ["Error while reading ", conf_file, ": ", err]))
          | .ok entries =>
            .ok (cfg.init_load.set_all entries,
                 (av.drop 1).filter (fun s => !is_config_file_arg s))) := by
  have hload : cfg.init_load.options_.ignore_broker_conf = false := by
    unfold configuration.init_load configuration.load
    simp only []
    split <;> exact hconf
  have h1 := configuration.init_phase1_split cfg.init_load env
    (configuration.init_args (some av)) hload
  rw [configuration.init_args_some] at h1
  refine ⟨?_, by rw [configuration.init_args_some]; exact h1⟩
  unfold configuration.init
  simp only [bind, Except.bind, configuration.init_args_some, h1]
  cases env.parse_conf ((av.drop 1).filter is_config_file_arg) with
  | error err => rfl
  | ok entries =>
    simp only [init_after_phase1]
    cases (cfg.init_load.set_all entries).init_phase2 env with
    | error e => rfl
    | ok c2 =>
      simp only [configuration.init_phase3]
      generalize (av.drop 1).filter (fun s => !is_config_file_arg s) = rest
      cases rest with
      | nil => rfl
      | cons r rs => rfl

/-- Witness for C17: of `broker-node --config-file=node.conf
--caf.logger.file.verbosity=trace` the first parser gets the second word and
the second parser the third. -/
theorem init_splits_arguments_witness :
    (precedence_argv.drop 1).filter is_config_file_arg = ["--config-file=node.conf"]
      ∧ (precedence_argv.drop 1).filter (fun s => !is_config_file_arg s)
          = ["--caf.logger.file.verbosity=trace"]
      ∧ (configuration.skip_init 1).init precedence_env (some precedence_argv)
          = init_after_phase1 (configuration.skip_init 1).init_load precedence_env
              [(console_verbosity_key, .string "debug"),
               (file_verbosity_key, .string "warning"),
               ("broker.recording-directory", .string "/tmp"),
               ("broker.output-generator-file-cap", .integer 7)]
              ["--caf.logger.file.verbosity=trace"] :=
  ⟨by decide, by decide,
   (init_splits_arguments (configuration.skip_init 1) precedence_env precedence_argv
      rfl).1.trans rfl⟩

/-! ## The core actor -/

theorem configuration.modules_set (cfg : configuration) (k : String) (v : config_value) :
    (cfg.set k v).modules = cfg.modules := rfl

theorem configuration.modules_set_all (es : List (String × config_value))
    (cfg : configuration) : (cfg.set_all es).modules = cfg.modules := by
  induction es generalizing cfg with
  | nil => rfl
  | cons e es ih =>
    simp only [configuration.set_all, List.foldl_cons] at ih ⊢
    rw [ih]
    rfl

theorem configuration.modules_init_load (cfg : configuration) :
    cfg.init_load.modules
      = cfg.modules ++ ["caf::io::middleman"]
          ++ (if cfg.options_.disable_ssl then [] else ["caf::openssl::manager"]) := by
  unfold configuration.init_load configuration.load
  cases h : cfg.options_.disable_ssl <;> simp [h]

theorem configuration.modules_init (cfg cfg' : configuration) (env : host_env)
    (argv : Option (List String)) (hinit : cfg.init env argv = .ok cfg') :
    cfg'.modules = cfg.init_load.modules := by
  obtain ⟨c1, args1, c2, h1, h2, h3⟩ := (configuration.init_ok_iff cfg cfg' env argv).1 hinit
  have hcli := configuration.init_phase3_ok cfg c1 c2 cfg' env argv args1 h1 h3
  rw [configuration.init_phase2_eq] at h2
  have hc1 : c1.modules = cfg.init_load.modules := by
    unfold configuration.init_phase1 at h1
    split at h1
    · simp only [] at h1
      split at h1
      · simp at h1
      · simp only [Except.ok.injEq, Prod.mk.injEq] at h1
        rw [← h1.1, configuration.modules_set_all]
    · simp only [Except.ok.injEq, Prod.mk.injEq] at h1
      rw [← h1.1]
  cases hes : env_entries env with
  | error e => rw [hes] at h2; simp at h2
  | ok es =>
    rw [hes] at h2
    simp only [Except.ok.injEq] at h2
    rw [hcli, configuration.modules_set_all, ← h2, configuration.modules_set_all, hc1]

/-- C11: the manager that the core actor creates gets the call
`disable_forwarding(true)` exactly when domain options are supplied and their
`disable_forwarding` field is true; `disable_forwarding` is called at most
once and never with `false`, so without options, or with the field false, the
forwarding setting keeps its default. -/
theorem leaf_mode_iff_option (self : actor_ref) (initial_filter : List topic)
    (clock : Nat) (adaptation : Option domain_options) (cfg : settings) :
    (manager_call.disable_forwarding true
          ∈ (core_actor self initial_filter clock adaptation cfg).calls
        ↔ ∃ a, adaptation = some a ∧ a.disable_forwarding = true)
      ∧ (core_actor self initial_filter clock adaptation cfg).forwarding_calls
          = (match adaptation with
             | some a => if a.disable_forwarding then [true] else []
             | none => [])
      ∧ (core_actor self initial_filter clock adaptation cfg).clock = clock
      ∧ (core_actor self initial_filter clock adaptation cfg).id_ = self.node := by
  cases adaptation with
  | none =>
    cases hf : initial_filter.isEmpty <;>
      simp [core_actor, core_manager.make, core_manager.call,
        core_manager.forwarding_calls, hf]
  | some a =>
    cases ha : a.disable_forwarding <;> cases hf : initial_filter.isEmpty <;>
      simp [core_actor, core_manager.make, core_manager.make_adapted, core_manager.call,
        core_manager.forwarding_calls, ha, hf]

/-- C12: the core actor calls `set_use_ssl` on the cache of its manager once,
as its last call, with the negation of the configuration value
`broker.disable-ssl`, taken as `false` when the key is absent: `true` without
the key, `!b` when the entry is the boolean `b`. And `init` loads the
middleman, and the OpenSSL module exactly when `options_.disable_ssl` is
false. -/
theorem plaintext_switch (self : actor_ref) (initial_filter : List topic)
    (clock : Nat) (adaptation : Option domain_options) (cfg : settings)
    (conf : configuration) :
    (core_actor self initial_filter clock adaptation cfg).use_ssl_calls
        = [!(cfg.get_or_bool "broker.disable-ssl" false)]
      ∧ (core_actor self initial_filter clock adaptation cfg).calls.getLast?
        = some (.set_use_ssl (!(cfg.get_or_bool "broker.disable-ssl" false)))
      ∧ (cfg.get_if "broker.disable-ssl" = none →
          (core_actor self initial_filter clock adaptation cfg).use_ssl_calls = [true])
      ∧ (∀ b, cfg.get_if "broker.disable-ssl" = some (.boolean b) →
          (core_actor self initial_filter clock adaptation cfg).use_ssl_calls = [!b])
      ∧ conf.init_load.modules
        = conf.modules ++ ["caf::io::middleman"]
            ++ (if conf.options_.disable_ssl then [] else ["caf::openssl::manager"])
      ∧ (∀ env argv conf', conf.init env argv = .ok conf' →
          conf'.modules
            = conf.modules ++ ["caf::io::middleman"]
                ++ (if conf.options_.disable_ssl then [] else ["caf::openssl::manager"])) := by
  have hcalls : (core_actor self initial_filter clock adaptation cfg).use_ssl_calls
      = [!(cfg.get_or_bool "broker.disable-ssl" false)] := by
    cases adaptation with
    | none =>
      cases hf : initial_filter.isEmpty <;>
        simp [core_actor, core_manager.make, core_manager.call,
          core_manager.use_ssl_calls, hf] <;> rfl
    | some a =>
      cases ha : a.disable_forwarding <;> cases hf : initial_filter.isEmpty <;>
        simp [core_actor, core_manager.make, core_manager.make_adapted, core_manager.call,
          core_manager.use_ssl_calls, ha, hf] <;> rfl
  refine ⟨hcalls, ?_, ?_, ?_, configuration.modules_init_load conf, ?_⟩
  · simp [core_actor, core_manager.call]
  · intro h
    rw [hcalls]
    simp [settings.get_or_bool, h]
  · intro b h
    rw [hcalls]
    simp [settings.get_or_bool, h]
  · intro env argv conf' hinit
    rw [configuration.modules_init conf conf' env argv hinit,
      configuration.modules_init_load]

theorem core_manager.foldl_push {α β : Type} (f : α → β) (xs : List α) (acc : List β) :
    xs.foldl (fun result x => result ++ [f x]) acc = acc ++ xs.map f := by
  induction xs generalizing acc with
  | nil => simp
  | cons x xs ih => simp [ih]

/-- C18: the answer to `(get, peer)` lists the direct connections of the
routing table, each with its peer id, flags `remote` and status `peered`,
followed by the pending connections, each with its peer id, flags `remote`
and status `connected`; its length is the number of direct connections plus
the number of pending ones. -/
theorem get_peer_lists_direct_then_pending {routing_table : Type}
    (for_each_direct : routing_table → List (Nat × Nat))
    (cache_find : Nat → Option network_info) (tbl : routing_table)
    (pending : List (Nat × pending_connection)) :
    core_manager.get_peer for_each_direct cache_find tbl pending
        = (for_each_direct tbl).map (fun x =>
            { peer := { node := x.1, network := cache_find x.2 },
              flags := .remote, status := .peered })
          ++ pending.map (fun x =>
            { peer := { node := x.1, network := cache_find x.2.hdl },
              flags := .remote, status := .connected })
      ∧ (core_manager.get_peer for_each_direct cache_find tbl pending).length
        = (for_each_direct tbl).length + pending.length
      ∧ (core_manager.get_peer for_each_direct cache_find tbl pending).map
          (fun info => info.peer.node)
        = (for_each_direct tbl).map Prod.fst ++ pending.map Prod.fst := by
  have h : core_manager.get_peer for_each_direct cache_find tbl pending
      = (for_each_direct tbl).map (fun x =>
            ({ peer := { node := x.1, network := cache_find x.2 },
               flags := .remote, status := .peered } : peer_info))
          ++ pending.map (fun x =>
            ({ peer := { node := x.1, network := cache_find x.2.hdl },
               flags := .remote, status := .connected } : peer_info)) := by
    unfold core_manager.get_peer
    simp only [core_manager.foldl_push, List.nil_append]
  refine ⟨h, ?_, ?_⟩
  · rw [h]
    simp
  · rw [h]
    simp [List.map_append, Function.comp_def]

/-! ## Topic laws -/

theorem split_components_word (w rest cur : List Char) (hw : topic.sep ∉ w) :
    split_components (w ++ rest) cur = split_components rest (cur ++ w) := by
  induction w generalizing cur with
  | nil => simp
  | cons c w ih =>
    have hc : c ≠ topic.sep := fun h => hw (h ▸ List.mem_cons_self _ _)
    have hw' : topic.sep ∉ w := fun h => hw (List.mem_cons_of_mem _ h)
    simp only [List.cons_append, split_components, if_neg hc]
    have h := ih (cur ++ [c]) hw'
    simp only [List.append_assoc, List.singleton_append] at h
    exact h

theorem split_components_sep (rest cur : List Char) :
    split_components (topic.sep :: rest) cur = cur :: split_components rest [] := by
  simp [split_components]

theorem split_components_sep_free (cs cur : List Char) (hcur : topic.sep ∉ cur) :
    ∀ comp ∈ split_components cs cur, topic.sep ∉ comp := by
  induction cs generalizing cur with
  | nil =>
    intro comp hcomp
    simp only [split_components, List.mem_singleton] at hcomp
    rw [hcomp]
    exact hcur
  | cons c cs ih =>
    intro comp hcomp
    by_cases hc : c = topic.sep
    · simp only [split_components, if_pos hc, List.mem_cons] at hcomp
      rcases hcomp with h | h
      · rw [h]; exact hcur
      · exact ih [] (by simp) comp h
    · simp only [split_components, if_neg hc] at hcomp
      refine ih (cur ++ [c]) ?_ comp hcomp
      intro hm
      rcases List.mem_append.1 hm with h | h
      · exact hcur h
      · exact hc (List.mem_singleton.1 h).symm

theorem split_components_join (comps : List (List Char)) (cur : List Char)
    (hfree : ∀ comp ∈ comps, topic.sep ∉ comp) :
    split_components (join_components comps) cur
      = match comps with
        | [] => [cur]
        | c :: rest => (cur ++ c) :: rest := by
  induction comps generalizing cur with
  | nil => simp [join_components, split_components]
  | cons c rest ih =>
    have hc : topic.sep ∉ c := hfree c (List.mem_cons_self _ _)
    cases rest with
    | nil =>
      have h := split_components_word c [] cur hc
      simp only [List.append_nil] at h
      simp [join_components, h, split_components]
    | cons c' rest' =>
      have hrest : ∀ comp ∈ c' :: rest', topic.sep ∉ comp :=
        fun comp h => hfree comp (List.mem_cons_of_mem _ h)
      simp only [join_components]
      rw [split_components_word c _ cur hc, split_components_sep, ih [] hrest]
      simp

theorem topic.split_sep_free (t : topic) : ∀ comp ∈ t.split, topic.sep ∉ comp := by
  intro comp h
  unfold topic.split at h
  exact split_components_sep_free _ [] (by simp) comp (List.mem_filter.1 h).1

theorem topic.split_nonempty (t : topic) : ∀ comp ∈ t.split, comp ≠ [] := by
  intro comp h
  unfold topic.split at h
  have := (List.mem_filter.1 h).2
  intro hnil
  rw [hnil] at this
  simp at this

theorem topic.split_join (comps : List (List Char))
    (hfree : ∀ comp ∈ comps, topic.sep ∉ comp) (hne : ∀ comp ∈ comps, comp ≠ []) :
    (topic.join comps).split = comps := by
  unfold topic.split topic.join
  simp only [String.toList]
  rw [split_components_join comps [] hfree]
  cases comps with
  | nil => simp
  | cons c rest =>
    simp only [List.nil_append]
    rw [List.filter_eq_self]
    intro comp hcomp
    have := hne comp hcomp
    cases comp with
    | nil => exact absurd rfl this
    | cons x xs => rfl

theorem topic.split_div (a b : topic) : (a.div b).split = a.split ++ b.split := by
  unfold topic.div
  apply topic.split_join
  · intro comp h
    rcases List.mem_append.1 h with h | h
    · exact topic.split_sep_free a comp h
    · exact topic.split_sep_free b comp h
  · intro comp h
    rcases List.mem_append.1 h with h | h
    · exact topic.split_nonempty a comp h
    · exact topic.split_nonempty b comp h

/-- C13: the topic laws. For all topics `a`, `b`, `c`: `prefix_of(a, a)`;
`prefix_of(a, a / b)`; and `prefix_of(a, b)` with `prefix_of(b, c)` gives
`prefix_of(a, c)`. -/
theorem topic_prefix_laws (a b c : topic) :
    a.prefix_of a = true
      ∧ a.prefix_of (a.div b) = true
      ∧ (a.prefix_of b = true → b.prefix_of c = true → a.prefix_of c = true) := by
  unfold topic.prefix_of
  refine ⟨?_, ?_, ?_⟩
  · rw [ List.isPrefixOf_iff_prefix]
  · rw [ List.isPrefixOf_iff_prefix, topic.split_div]
    exact List.prefix_append _ _
  · intro hab hbc
    rw [ List.isPrefixOf_iff_prefix] at hab hbc ⊢
    exact hab.trans hbc

/-- Witness for C13: `a/b` is a prefix of `a/b` joined with `c//d/`, which is
`a/b/c/d`, and of `a/b/c/d/e`; `a/b` is no prefix of `a/bc`. -/
theorem topic_prefix_laws_witness :
    (topic.from_string "a/b").div (topic.from_string "c//d/") = topic.from_string "a/b/c/d"
      ∧ (topic.from_string "a/b").prefix_of (topic.from_string "a/b/c/d") = true
      ∧ (topic.from_string "a/b").prefix_of (topic.from_string "a/b/c/d/e") = true
      ∧ (topic.from_string "a/b").prefix_of (topic.from_string "a/bc") = false :=
  ⟨by decide, by decide,
   (topic_prefix_laws (topic.from_string "a/b") (topic.from_string "a/b/c/d")
      (topic.from_string "a/b/c/d/e")).2.2 (by decide) (by decide),
   by decide⟩

/-! ## Copying a pipe -/

/-- C20: a pipe made with `FD_CLOEXEC` for both ends in a process with the
three standard descriptors has the descriptors 3 and 4, both with
`FD_CLOEXEC` set. Its copy has the descriptors 5 and 6 and the same recorded
flags, but the descriptor flags of 5 and 6 are 0: `dup_or_fail` sets the
flags on the descriptor it duplicates (3 and 4, which keep their flags), not
on the duplicate. -/
theorem pipe_copy_sets_flags_on_the_original :
    pipe.make std_fds FD_CLOEXEC FD_CLOEXEC 0 0
        = some ({ fds := (3, 4), flags := (1, 1) },
            { std_fds with
              entries := std_fds.entries ++
                [(3, { description := 3, fd_flags := 1 }),
                 (4, { description := 4, fd_flags := 1 })],
              status_flags := std_fds.status_flags ++ [(3, 0), (4, 0)],
              descriptions := 5 })
      ∧ ((pipe.make std_fds FD_CLOEXEC FD_CLOEXEC 0 0).bind
            (fun r => pipe.copy r.2 r.1)).map
          (fun r => (r.1, r.2.find 5, r.2.find 6, r.2.find 3, r.2.find 4))
        = some ({ fds := (5, 6), flags := (1, 1) },
            some { description := 3, fd_flags := 0 },
            some { description := 4, fd_flags := 0 },
            some { description := 3, fd_flags := 1 },
            some { description := 4, fd_flags := 1 }) := by
  refine ⟨by decide, by decide⟩

/-! ## The connector test -/

theorem connector_test.run_idle (n : Nat) (peer : actor_ref) (max_retries fuel : Nat)
    (s : connector_test) (h : s.queue = []) :
    connector_test.run n peer max_retries fuel s = s := by
  induction fuel with
  | zero => rfl
  | succ k ih =>
    have hs : connector_test.step n peer max_retries s = s := by
      unfold connector_test.step
      rw [h]
    simp only [connector_test.run, hs]
    exact ih

theorem connector_test.run_add (n : Nat) (peer : actor_ref) (max_retries a b : Nat)
    (s : connector_test) :
    connector_test.run n peer max_retries (a + b) s
      = connector_test.run n peer max_retries b
          (connector_test.run n peer max_retries a s) := by
  induction a generalizing s with
  | zero => simp [connector_test.run]
  | succ k ih =>
    rw [Nat.succ_add]
    simp only [connector_test.run]
    exact ih _

/-- C14: the connector asks the middleman for actor handles. For every
address, with a middleman that succeeds on the first request (`n ≤ 1`; the
test has `n = 0`) and enough deliveries, exactly three messages are
delivered: the `(peer, network_info)` request to the connector, one
`(connect, host, port)` with that host and port from the connector to the
middleman, and the reply with node id, handle and interfaces from the
middleman to the connector; no retry is issued and the peering is started. -/
theorem connector_asks_middleman_once (addr : network_info) (peer : actor_ref)
    (n max_retries fuel : Nat) (hn : n ≤ 1) (hfuel : 3 ≤ fuel) :
    (connector_test.run n peer max_retries fuel (connector_test.start addr)).delivered
        = [{ sender := .self, receiver := .aut, content := .peer addr },
           { sender := .aut, receiver := .mm, content := .connect addr.address addr.port },
           { sender := .mm, receiver := .aut, content := .handle peer.node peer.id [] }]
      ∧ (connector_test.run n peer max_retries fuel (connector_test.start addr)).queue = []
      ∧ (connector_test.run n peer max_retries fuel (connector_test.start addr)).aut.retries = 0
      ∧ (connector_test.run n peer max_retries fuel (connector_test.start addr)).aut.started
          = [(peer.node, peer.id)]
      ∧ (connector_test.run n peer max_retries fuel (connector_test.start addr)).mm.i = 1 := by
  obtain ⟨k, rfl⟩ : ∃ k, fuel = 3 + k := ⟨fuel - 3, by omega⟩
  have h3 : connector_test.run n peer max_retries 3 (connector_test.start addr)
      = { mm := { i := 1 },
          aut := { pending := none, retries := 0, started := [(peer.node, peer.id)],
                   unavailable := [] },
          queue := [],
          delivered :=
            [{ sender := .self, receiver := .aut, content := .peer addr },
             { sender := .aut, receiver := .mm, content := .connect addr.address addr.port },
             { sender := .mm, receiver := .aut, content := .handle peer.node peer.id [] }] } := by
    have hge : 0 + 1 ≥ n := by omega
    simp [connector_test.run, connector_test.step, connector_test.start, connector,
      dummy_mm, hge]
  rw [connector_test.run_add, h3, connector_test.run_idle _ _ _ _ _ rfl]
  exact ⟨rfl, rfl, rfl, rfl, rfl⟩

/-- Witness for C14: the test itself, `set_mm(0)` and the address
`localhost:8080`. -/
theorem connector_asks_middleman_once_witness :
    (connector_test.run 0 { id := 7, node := 42 } 5 3
        (connector_test.start { address := "localhost", port := 8080 })).delivered
      = [{ sender := .self, receiver := .aut,
           content := .peer { address := "localhost", port := 8080 } },
         { sender := .aut, receiver := .mm, content := .connect "localhost" 8080 },
         { sender := .mm, receiver := .aut, content := .handle 42 7 [] }] :=
  (connector_asks_middleman_once { address := "localhost", port := 8080 }
    { id := 7, node := 42 } 0 5 3 (by decide) (by decide)).1

/-! ## The loop check of the cluster benchmark -/

theorem foldl_max_ge_init (f : Nat → Nat) (l : List Nat) (init : Nat) :
    init ≤ l.foldl (fun result y => max result (f y)) init := by
  induction l generalizing init with
  | nil => exact Nat.le_refl _
  | cons y l ih =>
    simp only [List.foldl_cons]
    exact Nat.le_trans (Nat.le_max_left _ _) (ih _)

theorem foldl_max_ge_mem (f : Nat → Nat) (l : List Nat) (init y : Nat) (hy : y ∈ l) :
    f y ≤ l.foldl (fun result y => max result (f y)) init := by
  induction l generalizing init with
  | nil => simp at hy
  | cons z l ih =>
    simp only [List.foldl_cons]
    rcases List.mem_cons.1 hy with h | h
    · subst h
      exact Nat.le_trans (Nat.le_max_right _ _) (foldl_max_ge_init f l _)
    · exact ih _ h

theorem foldl_max_cases (f : Nat → Nat) (l : List Nat) (init : Nat) :
    l.foldl (fun result y => max result (f y)) init = init
      ∨ ∃ y ∈ l, l.foldl (fun result y => max result (f y)) init = f y := by
  induction l generalizing init with
  | nil => exact Or.inl rfl
  | cons z l ih =>
    simp only [List.foldl_cons]
    rcases ih (max init (f z)) with h | ⟨y, hy, h⟩
    · rw [h]
      rcases Nat.le_total init (f z) with hle | hle
      · right
        exact ⟨z, List.mem_cons_self _ _, Nat.max_eq_right hle⟩
      · left
        exact Nat.max_eq_left hle
    · right
      exact ⟨y, List.mem_cons_of_mem _ hy, h⟩

theorem max_depth_eq_levels (adj : Nat → List Nat) (levels x interim : Nat)
    (h : levels = max_nodes + 1 - interim) :
    max_depth adj x interim = max_depth_levels adj levels x interim := by
  induction levels generalizing x interim with
  | zero =>
    rw [max_depth, if_pos (by omega)]
    rfl
  | succ k ih =>
    rw [max_depth, if_neg (by omega)]
    simp only [max_depth_levels]
    congr 1
    funext result y
    rw [ih y (interim + 1) (by omega)]

theorem max_depth_ge_of_walk (adj : Nat → List Nat) (rest : List Nat) (x i : Nat)
    (hw : is_walk adj (x :: rest)) (hle : i + rest.length ≤ max_nodes + 1) :
    i + rest.length ≤ max_depth adj x i := by
  induction rest generalizing x i with
  | nil =>
    rw [max_depth]
    split
    · exact Nat.le_refl _
    · exact foldl_max_ge_init _ _ _
  | cons y rest ih =>
    simp only [is_walk, List.chain'_cons] at hw
    simp only [List.length_cons] at hle ⊢
    rw [max_depth, if_neg (by omega)]
    have h1 := ih y (i + 1) hw.2 (by omega)
    have h2 : max_depth adj y (i + 1)
        ≤ (adj x).foldl (fun result y => max result (max_depth adj y (i + 1))) i :=
      foldl_max_ge_mem (fun y => max_depth adj y (i + 1)) (adj x) i y hw.1
    omega

theorem walk_of_max_depth_ge (adj : Nat → List Nat) (k x i : Nat)
    (h : i + k ≤ max_depth adj x i) :
    ∃ rest, rest.length = k ∧ is_walk adj (x :: rest) := by
  induction k generalizing x i with
  | zero => exact ⟨[], rfl, by simp [is_walk]⟩
  | succ k ih =>
    rw [max_depth] at h
    by_cases hi : i > max_nodes
    · rw [if_pos hi] at h
      omega
    · rw [if_neg hi] at h
      rcases foldl_max_cases (fun y => max_depth adj y (i + 1)) (adj x) i with h0 | ⟨y, hy, hv⟩
      · rw [h0] at h
        omega
      · rw [hv] at h
        obtain ⟨rest, hlen, hw⟩ := ih y (i + 1) (by omega)
        refine ⟨y :: rest, by simp [hlen], ?_⟩
        simp only [is_walk, List.chain'_cons]
        exact ⟨hy, hw⟩

theorem exists_repeat_of_not_nodup (l : List Nat) (h : ¬ l.Nodup) :
    ∃ a l1 l2 l3, l = l1 ++ (a :: l2 ++ [a]) ++ l3 := by
  induction l with
  | nil => exact absurd List.nodup_nil h
  | cons x xs ih =>
    by_cases hx : x ∈ xs
    · obtain ⟨s, t, hst⟩ := List.append_of_mem hx
      exact ⟨x, [], s, t, by simp [hst]⟩
    · have hn : ¬ xs.Nodup := fun hnd => h (List.nodup_cons.2 ⟨hx, hnd⟩)
      obtain ⟨a, l1, l2, l3, hl⟩ := ih hn
      exact ⟨a, x :: l1, l2, l3, by simp [hl]⟩

theorem length_le_of_nodup_of_lt (l : List Nat) (n : Nat) (hnd : l.Nodup)
    (hlt : ∀ v ∈ l, v < n) : l.length ≤ n := by
  have hsub : l ⊆ List.range n := fun v hv => List.mem_range.2 (hlt v hv)
  have := (List.subperm_of_subset hnd hsub).length_le
  simpa using this

/-- A walk that visits more vertices than there are nodes runs through a
cycle. -/
theorem cycle_of_long_walk (adj : Nat → List Nat) (path : List Nat) (n : Nat)
    (hw : is_walk adj path) (hlt : ∀ v ∈ path, v < n) (hlen : n < path.length) :
    ∃ a mid, is_walk adj (a :: mid ++ [a]) := by
  have hnd : ¬ path.Nodup := fun h => by
    have := length_le_of_nodup_of_lt path n h hlt
    omega
  obtain ⟨a, l1, l2, l3, hl⟩ := exists_repeat_of_not_nodup path hnd
  refine ⟨a, l2, ?_⟩
  unfold is_walk at hw ⊢
  rw [hl] at hw
  exact (List.chain'_append.1 (List.chain'_append.1 hw).1).2.1

theorem is_walk_overlap (adj : Nat → List Nat) (l1 l2 : List Nat) (a : Nat)
    (h1 : is_walk adj (l1 ++ [a])) (h2 : is_walk adj (a :: l2)) :
    is_walk adj (l1 ++ a :: l2) := by
  unfold is_walk at h1 h2 ⊢
  have e : l1 ++ a :: l2 = (l1 ++ [a]) ++ l2 := by simp
  rw [e, List.chain'_append]
  refine ⟨h1, ?_, ?_⟩
  · cases l2 with
    | nil => exact List.chain'_nil
    | cons b l2 => exact (List.chain'_cons.1 h2).2
  · intro x hx y hy
    have hlast : (l1 ++ [a]).getLast? = some a := by simp
    rw [hlast] at hx
    simp only [Option.mem_def, Option.some.injEq] at hx
    subst hx
    cases l2 with
    | nil => simp at hy
    | cons b l2 =>
      simp only [List.head?_cons, Option.mem_def, Option.some.injEq] at hy
      subst hy
      exact (List.chain'_cons.1 h2).1

/-- From a node on a cycle there are walks of every length. -/
theorem walk_of_cycle (adj : Nat → List Nat) (a : Nat) (mid : List Nat)
    (hc : is_walk adj (a :: mid ++ [a])) (k : Nat) :
    ∃ rest, rest.length = k ∧ is_walk adj (a :: rest) := by
  have hlong : ∀ j : Nat, ∃ rest, j ≤ rest.length ∧ is_walk adj (a :: rest) := by
    intro j
    induction j with
    | zero => exact ⟨[], Nat.le_refl _, by simp [is_walk]⟩
    | succ j ih =>
      obtain ⟨rest, hlen, hw⟩ := ih
      refine ⟨mid ++ a :: rest, by simp; omega, ?_⟩
      have := is_walk_overlap adj (a :: mid) rest a (by simpa using hc) hw
      simpa using this
  obtain ⟨rest, hlen, hw⟩ := hlong k
  refine ⟨rest.take k, by simp [hlen], ?_⟩
  unfold is_walk at hw ⊢
  have e : a :: rest = (a :: rest.take k) ++ rest.drop k := by simp
  rw [e] at hw
  exact (List.chain'_append.1 hw).1

theorem cluster.mem_right_lt (c : cluster) (hwf : c.well_formed) (x y : Nat)
    (h : y ∈ c.right x) : x < c.size ∧ y < c.size := by
  unfold cluster.right at h
  by_cases hx : x < c.peers.length
  · rw [List.getD_eq_getElem _ _ hx] at h
    exact ⟨hx, hwf _ (List.getElem_mem _) y h⟩
  · rw [List.getD_eq_default _ _ (by omega)] at h
    simp at h

theorem cluster.mem_left_iff (c : cluster) (x y : Nat) :
    x ∈ c.left y ↔ x < c.size ∧ y ∈ c.right x := by
  unfold cluster.left
  simp only [List.mem_flatMap, List.mem_range, List.mem_filterMap]
  constructor
  · rintro ⟨z, hz, p, hp, hpz⟩
    by_cases hpy : p = y
    · rw [if_pos hpy] at hpz
      simp only [Option.some.injEq] at hpz
      subst hpz
      subst hpy
      exact ⟨hz, hp⟩
    · rw [if_neg hpy] at hpz
      simp at hpz
  · rintro ⟨hx, hy⟩
    exact ⟨x, hx, y, hy, by simp⟩

theorem walk_vertices_lt (adj : Nat → List Nat) (n : Nat)
    (hadj : ∀ x y, y ∈ adj x → y < n) (x : Nat) (rest : List Nat)
    (hw : is_walk adj (x :: rest)) : ∀ v ∈ rest, v < n := by
  induction rest generalizing x with
  | nil => simp
  | cons y rest ih =>
    simp only [is_walk, List.chain'_cons] at hw
    intro v hv
    rcases List.mem_cons.1 hv with h | h
    · rw [h]
      exact hadj x y hw.1
    · exact ih y hw.2 v h

theorem cluster.right_walk_of_left_walk (c : cluster) (path : List Nat)
    (hw : is_walk c.left path) : is_walk c.right path.reverse := by
  unfold is_walk at hw ⊢
  rw [List.chain'_reverse]
  exact List.Chain'.imp (fun a b hab => ((c.mem_left_iff b a).1 hab).2) hw

/-- C19: `max_left_depth` and `max_right_depth` are total (their recursion
ends when `interim` exceeds `max_nodes`), and for a cluster of `n` nodes with
`2 ≤ n < max_nodes` whose peers all name nodes, the loop check of `main`
reports a loop exactly when the directed graph of the right edges has a
cycle. -/
theorem loop_check_iff_cycle (c : cluster) (h2 : 2 ≤ c.size) (hmax : c.size < max_nodes)
    (hwf : c.well_formed) :
    loop_check c = true ↔ has_cycle c := by
  have hright : ∀ x y, y ∈ c.right x → y < c.size :=
    fun x y h => (c.mem_right_lt hwf x y h).2
  have hleft : ∀ x y, y ∈ c.left x → y < c.size :=
    fun x y h => ((c.mem_left_iff y x).1 h).1
  constructor
  · intro h
    simp only [loop_check, List.any_eq_true, List.mem_range, Bool.or_eq_true,
      decide_eq_true_eq] at h
    obtain ⟨x, hx, hdepth⟩ := h
    rcases hdepth with hl | hr
    · obtain ⟨rest, hlen, hw⟩ := walk_of_max_depth_ge c.left c.size x 0
        (by unfold max_left_depth at hl; omega)
      have hv := walk_vertices_lt c.left c.size hleft x rest hw
      obtain ⟨a, mid, hcyc⟩ := cycle_of_long_walk c.left (x :: rest) c.size hw
        (by
          intro v hv'
          rcases List.mem_cons.1 hv' with h | h
          · rw [h]; exact hx
          · exact hv v h)
        (by simp [hlen])
      have hrev := c.right_walk_of_left_walk _ hcyc
      refine ⟨a, mid.reverse, ?_⟩
      simpa using hrev
    · obtain ⟨rest, hlen, hw⟩ := walk_of_max_depth_ge c.right c.size x 0
        (by unfold max_right_depth at hr; omega)
      have hv := walk_vertices_lt c.right c.size hright x rest hw
      exact cycle_of_long_walk c.right (x :: rest) c.size hw
        (by
          intro v hv'
          rcases List.mem_cons.1 hv' with h | h
          · rw [h]; exact hx
          · exact hv v h)
        (by simp [hlen])
  · rintro ⟨a, mid, hcyc⟩
    have ha : a < c.size := by
      have hw := hcyc
      unfold is_walk at hw
      cases mid with
      | nil =>
        simp only [List.nil_append, List.cons_append, List.chain'_cons] at hw
        exact (c.mem_right_lt hwf a a hw.1).1
      | cons b mid =>
        simp only [List.cons_append, List.chain'_cons] at hw
        exact (c.mem_right_lt hwf a b hw.1).1
    obtain ⟨rest, hlen, hw⟩ := walk_of_cycle c.right a mid hcyc c.size
    have hge := max_depth_ge_of_walk c.right rest a 0 hw (by omega)
    simp only [loop_check, List.any_eq_true, List.mem_range, Bool.or_eq_true,
      decide_eq_true_eq]
    refine ⟨a, ha, Or.inr ?_⟩
    unfold max_right_depth
    omega

theorem loop_check_eq_levels (c : cluster) :
    loop_check c
      = (List.range c.size).any (fun x =>
          decide (max_depth_levels c.left (max_nodes + 1) x 0 > c.size - 1)
            || decide (max_depth_levels c.right (max_nodes + 1) x 0 > c.size - 1)) := by
  unfold loop_check max_left_depth max_right_depth
  congr 1
  funext x
  rw [max_depth_eq_levels c.left (max_nodes + 1) x 0 rfl,
    max_depth_eq_levels c.right (max_nodes + 1) x 0 rfl]

/-- Witness for C19: the ring `0 → 1 → 2 → 0` has a cycle and the check
reports a loop; the diamond `0 → 1 → 3`, `0 → 2 → 3` makes the check report
none, and it has no cycle. -/
theorem loop_check_iff_cycle_witness :
    has_cycle ring_cluster ∧ loop_check ring_cluster = true
      ∧ loop_check diamond_cluster = false ∧ ¬ has_cycle diamond_cluster :=
  have hring : has_cycle ring_cluster :=
    ⟨0, [1, 2], by simp [is_walk, ring_cluster, cluster.right]⟩
  have hdiamond : loop_check diamond_cluster = false := by
    rw [loop_check_eq_levels]
    decide
  ⟨hring,
   (loop_check_iff_cycle ring_cluster (by decide) (by decide) (by decide)).2 hring,
   hdiamond,
   fun h => by
    have ht := (loop_check_iff_cycle diamond_cluster (by decide) (by decide) (by decide)).2 h
    rw [hdiamond] at ht
    exact absurd ht (by decide)⟩

theorem fd_table.lowest_unused_fresh (t : fd_table) :
    t.find (t.lowest_unused : Int) = none := by
  have key : ∀ n : Nat, (!t.entries.any (fun e => e.1 == Int.ofNat n)) = true →
      t.find (Int.ofNat n) = none := by
    intro n hn
    unfold fd_table.find
    rw [List.lookup_eq_none_iff]
    intro p hp
    simp only [Bool.not_eq_true', List.any_eq_false, beq_iff_eq] at hn
    have := hn p hp
    simp only [bne_iff_ne, ne_eq]
    exact fun h => this h.symm
  unfold fd_table.lowest_unused
  cases hf : (List.range (t.entries.length + 1)).find?
      (fun (n : Nat) => !t.entries.any (fun e => e.1 == Int.ofNat n)) with
  | some n =>
    simp only [Option.getD_some]
    have hp := List.find?_some hf
    exact key n hp
  | none =>
    exfalso
    rw [List.find?_eq_none] at hf
    have hsub : (List.range (t.entries.length + 1)).map Int.ofNat ⊆ t.entries.map Prod.fst := by
      intro v hv
      obtain ⟨n, hn, rfl⟩ := List.mem_map.1 hv
      have := hf n hn
      simp only [Bool.not_eq_true, Bool.not_eq_false', List.any_eq_true, beq_iff_eq] at this
      obtain ⟨e, he, hk⟩ := this
      exact List.mem_map.2 ⟨e, he, hk⟩
    have hnd : ((List.range (t.entries.length + 1)).map Int.ofNat).Nodup :=
      (List.nodup_range _).map (fun a b h => Int.ofNat.inj h)
    have := (List.subperm_of_subset hnd hsub).length_le
    simp at this

theorem fd_table.find_update_other (t : fd_table) (fd fd' : Int) (e : fd_entry)
    (h : fd' ≠ fd) : (t.update fd e).find fd' = t.find fd' := by
  have key : ∀ l : List (Int × fd_entry),
      List.lookup fd' (l.map (fun x => if x.1 = fd then (fd, e) else x))
        = List.lookup fd' l := by
    intro l
    induction l with
    | nil => rfl
    | cons x xs ih =>
      obtain ⟨k, v⟩ := x
      rw [List.map_cons]
      by_cases hk : k = fd
      · have hne : (fd' == fd) = false := by simpa using h
        have hne2 : (fd' == k) = false := by rw [hk]; exact hne
        rw [if_pos (show (k, v).1 = fd from hk), List.lookup_cons, List.lookup_cons, hne, hne2]
        exact ih
      · rw [if_neg (show ¬ (k, v).1 = fd from hk), List.lookup_cons, List.lookup_cons, ih]
  exact key t.entries

theorem set_flags_find_other (t : fd_table) (fd fd' : Int) (flags : Nat) (h : fd' ≠ fd) :
    (set_flags t fd flags).find fd' = t.find fd' := by
  unfold set_flags
  split
  · split
    · exact fd_table.find_update_other t fd fd' _ h
    · rfl
  · rfl

theorem fd_table.dup_spec (t t' : fd_table) (fd rval : Int)
    (h : t.dup fd = (rval, t')) (hr : ¬ rval < 0) :
    t.find rval = none ∧ (t.find fd).isSome = true
      ∧ (∃ e : fd_entry, t.find fd = some e
          ∧ t'.find rval = some { description := e.description, fd_flags := 0 })
      ∧ ∀ fd', fd' ≠ rval → t'.find fd' = t.find fd' := by
  unfold fd_table.dup at h
  cases he : t.find fd with
  | none =>
    rw [he] at h
    simp only [Prod.mk.injEq] at h
    exact absurd (h.1 ▸ (by decide : (-1 : Int) < 0)) hr
  | some e =>
    rw [he] at h
    simp only [] at h
    by_cases hl : t.lowest_unused < t.limit
    · rw [if_pos hl] at h
      simp only [Prod.mk.injEq] at h
      obtain ⟨h1, h2⟩ := h
      have hfresh := fd_table.lowest_unused_fresh t
      have hcast : (t.lowest_unused : Int) = rval := h1
      rw [hcast] at hfresh
      refine ⟨hfresh, rfl, ⟨e, rfl, ?_⟩, ?_⟩
      · rw [← h2]
        unfold fd_table.find at hfresh ⊢
        simp only [List.lookup_append, hfresh, Option.none_or]
        rw [← hcast, List.lookup_cons]
        simp
      · intro fd' hne
        rw [← h2]
        unfold fd_table.find
        simp only [List.lookup_append]
        have hne' : (fd' == (t.lowest_unused : Int)) = false := by
          rw [hcast]
          simpa using hne
        cases List.lookup fd' t.entries with
        | none =>
          simp only [Option.none_or, List.lookup_cons, hne']
          rfl
        | some v => rfl
    · rw [if_neg hl] at h
      simp only [Prod.mk.injEq] at h
      exact absurd (h.1 ▸ (by decide : (-1 : Int) < 0)) hr

theorem dup_or_fail_spec (t t' : fd_table) (fd rval : Int) (flags : Nat)
    (h : dup_or_fail t fd flags = some (rval, t')) :
    t.find rval = none
      ∧ (∃ e : fd_entry, t.find fd = some e
          ∧ t'.find rval = some { description := e.description, fd_flags := 0 })
      ∧ ∀ fd', fd' ≠ rval → fd' ≠ fd → t'.find fd' = t.find fd' := by
  unfold dup_or_fail at h
  simp only [] at h
  by_cases hneg : (t.dup fd).1 < 0
  · rw [if_pos hneg] at h
    simp at h
  · rw [if_neg hneg] at h
    simp only [Option.some.injEq, Prod.mk.injEq] at h
    obtain ⟨h1, h2⟩ := h
    obtain ⟨hfresh, hopen, ⟨e, he, hnew⟩, hother⟩ :=
      fd_table.dup_spec t (t.dup fd).2 fd rval (by rw [← h1]) (by rw [← h1]; exact hneg)
    have hne : rval ≠ fd := by
      intro heq
      rw [heq, he] at hfresh
      simp at hfresh
    refine ⟨hfresh, ⟨e, he, ?_⟩, ?_⟩
    · rw [← h2, set_flags_find_other _ _ _ _ hne]
      exact hnew
    · intro fd' hr hf
      rw [← h2, set_flags_find_other _ _ _ _ hf]
      exact hother fd' hr

/-- The descriptors of a copy carry no descriptor flag, whatever flags the
pipe records: for every pipe with two open descriptors whose copy succeeds,
both descriptors of the copy are new, refer to the open file descriptions of
the original and have the descriptor flags 0, while the recorded flags are
those of the original. -/
theorem pipe.copy_clears_fd_flags (t t' : fd_table) (p q : pipe)
    (h : pipe.copy t p = some (q, t')) (h2 : (t.find p.fds.2).isSome = true) :
    q.flags = p.flags
      ∧ t.find q.fds.1 = none
      ∧ (∃ e : fd_entry, t.find p.fds.1 = some e
          ∧ t'.find q.fds.1 = some { description := e.description, fd_flags := 0 })
      ∧ (∃ e : fd_entry,
          t'.find q.fds.2 = some { description := e.description, fd_flags := 0 }) := by
  unfold pipe.copy at h
  cases hd1 : dup_or_fail t p.fds.1 p.flags.1 with
  | none => rw [hd1] at h; simp at h
  | some r1 =>
    obtain ⟨fd0, t1⟩ := r1
    rw [hd1] at h
    simp only [] at h
    cases hd2 : dup_or_fail t1 p.fds.2 p.flags.2 with
    | none => rw [hd2] at h; simp at h
    | some r2 =>
      obtain ⟨fd1, t2⟩ := r2
      rw [hd2] at h
      simp only [Option.some.injEq, Prod.mk.injEq] at h
      obtain ⟨hq, ht⟩ := h
      subst hq
      subst ht
      obtain ⟨hfresh1, ⟨e1, he1, hnew1⟩, hother1⟩ := dup_or_fail_spec t t1 _ fd0 _ hd1
      obtain ⟨hfresh2, ⟨e2, he2, hnew2⟩, hother2⟩ := dup_or_fail_spec t1 t2 _ fd1 _ hd2
      refine ⟨rfl, hfresh1, ⟨e1, he1, ?_⟩, ⟨e2, hnew2⟩⟩
      have hne1 : fd0 ≠ fd1 := by
        intro heq
        rw [← heq, hnew1] at hfresh2
        simp at hfresh2
      have hne2 : fd0 ≠ p.fds.2 := by
        intro heq
        rw [← heq, hfresh1] at h2
        simp at h2
      simp only []
      rw [hother2 fd0 hne1 hne2]
      exact hnew1

end Broker
